import Mathlib

/-!
Verification development for the mindi hierarchical dependency-injection
container (`src/Injector.ts`, `src/ForwardRef.ts`, `src/MetadataUtils.ts`,
`src/common.ts`, `src/decorators.ts`).

The TypeScript core is shallowly embedded as a fuel-indexed interpreter over
an explicit world state.  JS reference identity for constructed instances is
modelled by numeric heap ids (`Value.obj`), JS `undefined` by `Value.undefV`,
and the mutable `resolved` field of a provider by a `Value` field that
defaults to `Value.undefV` (the source checks `provider.resolved !== undefined`,
so an absent field and a field holding `undefined` are indistinguishable
there, and the embedding mirrors exactly that check).

External effects that the container merely triggers (constructor bodies,
post-construct hook bodies) are recorded in a ghost event trace rather than
executed; `ForwardRef` resolver functions and factory functions are modelled
as pure (deterministic) values, which is the behaviour of every use in the
repository.
-/

/-- Registry keys: anything usable as a `Map` key in the source.  `injectorClass`
is the `Injector` constructor itself (every injector self-registers under it),
`cls c` is a class constructor used as a token, `tok n` is a `Token` instance
(reference identity, so a plain id), `strK` is a string key. -/
inductive Key where
  | injectorClass
  | cls (c : Nat)
  | tok (n : Nat)
  | strK (s : String)
deriving DecidableEq, Repr

/-- A value that may instead be wrapped in a `ForwardRef` (`src/ForwardRef.ts`).
The resolver function of a `ForwardRef` is modelled as pure, so the wrapper
just carries the value the resolver returns. -/
inductive FRef (α : Type) where
  | plain (a : α)
  | fwd (a : α)
deriving DecidableEq, Repr

/-- `ForwardRef.resolve`: unwrap one layer of `ForwardRef`, identity otherwise. -/
def ForwardRef.resolve : FRef α → α
  | .plain a => a
  | .fwd a => a

/-- `InjectionMetadata` (`src/common.ts`): the per-dependency injection spec.
`skipInit` appears in `Injector.ts` (`metadata.skipInit`), so it is included. -/
structure Meta where
  token : FRef Key := .plain (.tok 0)
  optional : Bool := false
  lazy : Bool := false
  self : Bool := false
  skipSelf : Bool := false
  skipInit : Bool := false
deriving DecidableEq, Repr

/-- `InjectionMetadataArg`: either a bare token (a `Token` or a class) or a
full metadata record (`Injector._resolveMetadata` distinguishes them). -/
inductive MetaArg where
  | tokA (k : Key)
  | metaA (m : Meta)
deriving DecidableEq, Repr

/-- `Injector._resolveMetadata`. -/
def resolveMetadataArg : MetaArg → Meta
  | .tokA k => { token := .plain k }
  | .metaA m => m

/-- The JS value domain visible to the container.  `obj id` is a heap
reference (so propositional equality of `obj` values is reference equality),
`arr` a JS array, `thunk i m` the closure
`() => this.get(meta.token, undefined, meta)` created by
`Injector._getDependencies` for a lazy dependency on injector `i`,
`injectorV i` the injector instance registered under its own class. -/
inductive Value where
  | undefV
  | nullV
  | str (s : String)
  | num (n : Int)
  | obj (id : Nat)
  | arr (vs : List Value)
  | thunk (inj : Nat) (m : Meta)
  | injectorV (inj : Nat)

/-- The `provider.resolved !== undefined` test from the source. -/
def Value.isUndefV : Value → Bool
  | .undefV => true
  | _ => false

/-- `Array.isArray`. -/
def Value.isArr : Value → Bool
  | .arr _ => true
  | _ => false

/-- A JS function value as stored in a `useFactory` field: either a pure
function of its positional arguments, or a function that allocates and
returns a fresh object (tagged with a class id) each time it is invoked. -/
inductive FactoryFn where
  | pureF (f : List Value → Value)
  | allocF (c : Nat)

/-- The payload distinguishing the four provider shapes of `src/common.ts`
(`useClass` / `useFactory` / `useValue` / `useExisting`), discriminated in the
source by `hasOwnProperty` probes; `badP` is any other shape (resolution
raises "could not resolve provider" on it). -/
inductive PKind where
  | classP (useClass : FRef Nat)
  | factoryP (useFactory : FRef FactoryFn) (deps : List MetaArg)
  | valueP (useValue : FRef Value)
  | existingP (useExisting : FRef Key)
  | badP

/-- Provider kinds that `_resolve` caches on (class, factory, value). -/
def PKind.isConcrete : PKind → Bool
  | .classP _ => true
  | .factoryP _ _ => true
  | .valueP _ => true
  | _ => false

def PKind.isExisting : PKind → Bool
  | .existingP _ => true
  | _ => false

/-- A normalized provider record: `provide` key, shape, `multi` flag and the
mutable `resolved` cache field (absent in JS ≡ holding `undefined`, see the
module comment). -/
structure Prov where
  provide : Key
  kind : PKind
  multi : Bool := false
  resolved : Value := .undefV

/-- One registry slot.  `registerProvider` stores a non-multi provider
directly (`single`) and accumulates multi providers into one synthetic
`ValueProvider` whose `useValue` is the list of the registered provider
records (`multiE`). -/
inductive Entry where
  | single (p : Prov)
  | multiE (ps : List Prov)

/-- The private state of one `Injector` instance. -/
structure InjState where
  providers : List (Key × Entry) := []
  parent : Option Nat := none
  resolving : List Key := []

/-- Ghost trace events: `resolveRun i k` is recorded each time `_resolve` on
injector `i` gets past the `resolved` cache check for the provider keyed `k`
(i.e. an actual resolution is performed); `constructE c oid` each time
`_instantiate` runs `new` on class `c` producing heap object `oid`;
`hookE oid name owner` each time a post-construct hook `name` is invoked on
`oid`, with `owner` the class whose implementation dynamic dispatch selects. -/
inductive Event where
  | resolveRun (inj : Nat) (k : Key)
  | constructE (c : Nat) (oid : Nat)
  | hookE (oid : Nat) (name : String) (owner : Nat)
deriving DecidableEq, Repr

/-- Synchronous failures of the container (section 7 of the spec), plus the
two meta-outcomes of the embedding: `outOfFuel` (the fuel bound was hit, not
a behaviour of the program) and `missingInjector` (a dangling injector id,
impossible for worlds built by the provided constructors). -/
inductive JsError where
  | outOfFuel
  | missingInjector
  | unresolved (k : Key)
  | cyclic (k : Key)
  | badProvider (k : Key)
  | typeErr
deriving DecidableEq, Repr

/-- A heap object: its class and its (autowired) own properties. -/
structure ObjData where
  cls : Nat
  props : List (String × Value) := []

/-- The whole mutable state: all injectors, the object heap, the fresh-id
counter and the ghost event trace. -/
structure World where
  injs : List (Nat × InjState) := []
  heap : List (Nat × ObjData) := []
  nextObj : Nat := 0
  events : List Event := []

/-- `ClassInjectionMetadata`: what one level of the prototype chain stores
under the `INJECT_METADATA` key (constructor-parameter specs in order, and
property-name ↦ spec pairs in declaration order). -/
structure ClassInjMeta where
  params : List Meta := []
  properties : List (String × MetaArg) := []

/-- The per-class information the container reads: the `extends` parent, the
own `INJECT_METADATA` entry, the `static inject` fallback (a function or an
array in the source, both an ordered list of args here), the own
`CONSTRUCTED_META_KEY` entry (post-construct method names in declaration
order), and the class's own method names (for dynamic dispatch of hooks). -/
structure ClassInfo where
  parentC : Option Nat := none
  injectMeta : Option ClassInjMeta := none
  staticInject : Option (List MetaArg) := none
  constructMeta : Option (List String) := none
  methods : List String := []

/-- The ambient class/metadata side table.  Prototype chains are finite and
acyclic in JS; class tables used here number parents strictly below children
and the chain walks stop on any violation. -/
abbrev ClassTable := Nat → ClassInfo

/-- Association-list lookup standing in for `Map.get`/`Map.has`. -/
def lookupK (l : List (Key × Entry)) (k : Key) : Option Entry :=
  (l.find? (fun kv => kv.1 = k)).map (·.2)

/-- `Map.set`: replace in place if present (keeping insertion order), append
otherwise. -/
def setK (l : List (Key × Entry)) (k : Key) (e : Entry) : List (Key × Entry) :=
  if (l.find? (fun kv => kv.1 = k)).isSome then
    l.map (fun kv => if kv.1 = k then (k, e) else kv)
  else
    l ++ [(k, e)]

/-- Remove the first occurrence of `k`. -/
def removeFirst : List Key → Key → List Key
  | [], _ => []
  | x :: xs, k => if x = k then xs else x :: removeFirst xs k

/-- `list.splice(list.indexOf(k), 1)`: removes the first occurrence of `k`
when present; when `indexOf` returns `-1`, `splice(-1, 1)` removes the last
element, which the model reproduces. -/
def spliceOne (l : List Key) (k : Key) : List Key :=
  if k ∈ l then removeFirst l k else l.dropLast

def findInj (w : World) (i : Nat) : Option InjState :=
  (w.injs.find? (fun p => p.1 = i)).map (·.2)

/-- Mutate the injector object with id `i` (ids are unique — one JS object per
injector — so this updates the slot `findInj` reads). -/
def updInjL (l : List (Nat × InjState)) (i : Nat) (f : InjState → InjState) :
    List (Nat × InjState) :=
  match l with
  | [] => []
  | p :: rest => if p.1 = i then (p.1, f p.2) :: rest else p :: updInjL rest i f

def updInj (w : World) (i : Nat) (f : InjState → InjState) : World :=
  { w with injs := updInjL w.injs i f }

/-- `this._resolving.push(key)` on injector `i`. -/
def pushRes (i : Nat) (k : Key) (w : World) : World :=
  updInj w i (fun s => { s with resolving := s.resolving ++ [k] })

/-- `this._resolving.splice(this._resolving.indexOf(key), 1)` on injector `i`. -/
def popRes (i : Nat) (k : Key) (w : World) : World :=
  updInj w i (fun s => { s with resolving := spliceOne s.resolving k })

def addEvent (e : Event) (w : World) : World :=
  { w with events := w.events ++ [e] }

/-- Allocate a fresh heap object of class `c`; the returned id models the JS
reference. -/
def allocObj (c : Nat) (w : World) : Nat × World :=
  (w.nextObj,
   { w with heap := w.heap ++ [(w.nextObj, { cls := c })], nextObj := w.nextObj + 1 })

/-- `instance[key] = dependency`. -/
def setProp (oid : Nat) (key : String) (v : Value) (w : World) : World :=
  { w with heap := w.heap.map (fun p =>
      if p.1 = oid then
        (p.1, { p.2 with props :=
          if (p.2.props.find? (fun kv => kv.1 = key)).isSome then
            p.2.props.map (fun kv => if kv.1 = key then (key, v) else kv)
          else
            p.2.props ++ [(key, v)] })
      else p) }

def lookupHeap (w : World) (oid : Nat) : Option ObjData :=
  (w.heap.find? (fun p => p.1 = oid)).map (·.2)

/-- Read the provider record located at registry slot `k` of injector `i`
(`idx = some j` addresses element `j` of a multi entry's accumulated list). -/
def readProv (w : World) (i : Nat) (k : Key) (idx : Option Nat) : Option Prov :=
  match findInj w i with
  | none => none
  | some st =>
    match lookupK st.providers k, idx with
    | some (.single p), none => some p
    | some (.multiE ps), some j => ps.get? j
    | _, _ => none

def setResolvedAt : List Prov → Nat → Value → List Prov
  | [], _, _ => []
  | p :: ps, 0, v => { p with resolved := v } :: ps
  | p :: ps, j + 1, v => p :: setResolvedAt ps j v

/-- Update the entry under the first occurrence of key `k` (keys of a JS
`Map` are unique — one slot per key — so this updates the slot `lookupK`
reads). -/
def updEntryL (l : List (Key × Entry)) (k : Key) (f : Entry → Entry) :
    List (Key × Entry) :=
  match l with
  | [] => []
  | kv :: rest => if kv.1 = k then (kv.1, f kv.2) :: rest else kv :: updEntryL rest k f

/-- The entry update performed by a `provider.resolved = result` write. -/
def writeResolved (idx : Option Nat) (v : Value) : Entry → Entry :=
  fun e =>
    match e, idx with
    | .single p, none => .single { p with resolved := v }
    | .multiE ps, some j => .multiE (setResolvedAt ps j v)
    | e2, _ => e2

/-- `provider.resolved = result`: mutate the `resolved` field of the provider
object located at (`i`, `k`, `idx`). -/
def setResolved (i : Nat) (k : Key) (idx : Option Nat) (v : Value) (w : World) : World :=
  updInj w i (fun s =>
    { s with providers := updEntryL s.providers k (writeResolved idx v) })

/-- `MetadataUtils.getInheritedMetadata`: walk the prototype chain from the
class itself up to (excluding) `Object.prototype`, collecting each level's own
metadata, most-derived level first.  Prototype chains are finite and acyclic
in JS; class tables used here number parents strictly below children, so a
step budget of `c + 1` (supplied at every call site) makes the walk exact. -/
def chainCollectAux (ct : ClassTable) (sel : ClassInfo → Option α) :
    Nat → Nat → List α
  | 0, _ => []
  | steps + 1, c =>
    let info := ct c
    let own := match sel info with
      | some a => [a]
      | none => []
    match info.parentC with
    | some p => own ++ chainCollectAux ct sel steps p
    | none => own

def chainCollect (ct : ClassTable) (sel : ClassInfo → Option α) (c : Nat) : List α :=
  chainCollectAux ct sel (c + 1) c

/-- `Reflect.getMetadata` (the inherited variant): first hit walking the
prototype chain from the class itself upward. -/
def chainFirstAux (ct : ClassTable) (sel : ClassInfo → Option α) :
    Nat → Nat → Option α
  | 0, _ => none
  | steps + 1, c =>
    match sel (ct c) with
    | some a => some a
    | none =>
      match (ct c).parentC with
      | some p => chainFirstAux ct sel steps p
      | none => none

def chainFirst (ct : ClassTable) (sel : ClassInfo → Option α) (c : Nat) : Option α :=
  chainFirstAux ct sel (c + 1) c

/-- Dynamic dispatch: the class whose implementation `instance[name]` selects
(the most-derived class of the chain declaring a method called `name`). -/
def methodOwnerAux (ct : ClassTable) (name : String) : Nat → Nat → Option Nat
  | 0, _ => none
  | steps + 1, c =>
    if name ∈ (ct c).methods then some c
    else
      match (ct c).parentC with
      | some p => methodOwnerAux ct name steps p
      | none => none

def methodOwner (ct : ClassTable) (name : String) (c : Nat) : Option Nat :=
  methodOwnerAux ct name (c + 1) c

/-- `Injector._getConstructorMetadata`: the inherited `INJECT_METADATA` entry
wins (its `params`, which is always an array once the metadata object exists);
otherwise the `static inject` fallback (function or array, both an ordered
list of args) is run through `_resolveMetadataList`. -/
def getConstructorMetadata (ct : ClassTable) (c : Nat) : List Meta :=
  match chainFirst ct (fun info => info.injectMeta) c with
  | some m => m.params
  | none =>
    match chainFirst ct (fun info => info.staticInject) c with
    | some args => args.map resolveMetadataArg
    | none => []

/-- JS object-spread merge `{ ...base, ...upd }` on string-keyed records:
keys of `base` keep their position (values overridden by `upd`), keys only in
`upd` are appended in `upd`'s order. -/
def jsMerge (base upd : List (String × α)) : List (String × α) :=
  base.map (fun kv =>
    match (upd.find? (fun kv2 => kv2.1 = kv.1)).map (·.2) with
    | some v => (kv.1, v)
    | none => kv)
  ++ upd.filter (fun kv => (base.find? (fun kv2 => kv2.1 = kv.1)).isNone)

/-- The post-construct name merge of `Injector._instantiateWithHooks`: the
per-level name lists root-to-leaf, each name appended on its first occurrence
only (`if (result.indexOf(postConstruct) === -1) result.push(...)`). -/
def mergePostConstructs (levels : List (List String)) : List String :=
  levels.foldl
    (fun acc names =>
      names.foldl (fun r n => if n ∈ r then r else r ++ [n]) acc)
    []

/-- The hook invocation loop of `_instantiateWithHooks`: each name is invoked
as a no-argument call on the instance; a name with no method anywhere on the
chain is a JS `TypeError`.  Hook bodies are external code: only the invocation
(with the dispatched owner class) is recorded. -/
def invokePostConstructs (ct : ClassTable) (oid : Nat) (c : Nat) :
    List String → World → Except JsError Unit × World
  | [], w => (.ok (), w)
  | n :: ns, w =>
    match methodOwner ct n c with
    | none => (.error .typeErr, w)
    | some owner => invokePostConstructs ct oid c ns (addEvent (.hookE oid n owner) w)

/-- The six mutually recursive operations of `Injector`, as one call type:
`get` is `Injector.get`; `resolveAt i k idx meta skipCyc` is
`Injector._resolve` applied to the provider record stored at slot `k` of
injector `i` (element `idx` of the accumulated list for a multi entry);
`resolveMulti i k j n` is the `useValue.map(p => this._resolve(p))` loop of
`get`'s multi branch (elements `j ..< j+n`); `getDependencies` is
`Injector._getDependencies`; `autowire` is `Injector.autowire` on heap object
`oid`; `instantiateWithHooks` is `Injector._instantiateWithHooks`. -/
inductive Call where
  | get (i : Nat) (token : FRef Key) (defaultValue : Value) (metadata : Meta)
  | resolveAt (i : Nat) (k : Key) (idx : Option Nat) (metadata : Meta) (skipCyclicCheck : Bool)
  | resolveMulti (i : Nat) (k : Key) (j n : Nat)
  | getDependencies (i : Nat) (metadata : List Meta)
  | autowire (i : Nat) (oid : Nat) (propMetadata : Option (List (String × MetaArg)))
  | instantiateWithHooks (i : Nat) (c : Nat) (skipInit : Bool) (args : List Value)

/-- Result payloads of the different operations. -/
inductive Out where
  | val (v : Value)
  | vals (vs : List Value)
  | unitO

/-- The interpreter.  Fuel decreases on every internal call; `run` with fuel
`0` reports `outOfFuel` (a meta-outcome, not a program behaviour).  Each
`Call` branch is a line-by-line transcription of the corresponding method of
`src/Injector.ts`; see the comments referencing the source. -/
def run (ct : ClassTable) : Nat → Call → World → Except JsError Out × World
  | 0, _, w => (.error .outOfFuel, w)
  | fuel + 1, c, w =>
    match c with
    | .get i tokArg defaultValue metadata =>
      -- Injector.get, lines 91-130
      let token := ForwardRef.resolve tokArg
      match findInj w i with
      | none => (.error .missingInjector, w)
      | some st =>
        match lookupK st.providers token, metadata.skipSelf with
        | some entry, false =>
          -- `if (this._providers.has(token) && !metadata.skipSelf)`
          match entry with
          | .multiE ps =>
            -- `provider.multi`: resolve every accumulated provider record
            match run ct fuel (.resolveMulti i token 0 ps.length) w with
            | (.error e, w₁) => (.error e, w₁)
            | (.ok (.vals vs), w₁) =>
              match st.parent, metadata.self with
              | some pid, false =>
                -- fetch the parent's view, defaulting to [] and clearing flags
                match run ct fuel
                    (.get pid (.plain token) (.arr [])
                      { metadata with skipSelf := false, self := false }) w₁ with
                | (.error e, w₂) => (.error e, w₂)
                | (.ok (.val pv), w₂) =>
                  -- a non-array parent result is coerced into a one-element list
                  let pvs := match pv with
                    | .arr xs => xs
                    | x => [x]
                  (.ok (.val (.arr (vs ++ pvs))), w₂)
                | (.ok _, w₂) => (.error .typeErr, w₂)
              | _, _ => (.ok (.val (.arr vs)), w₁)
            | (.ok _, w₁) => (.error .typeErr, w₁)
          | .single p =>
            if p.resolved.isUndefV then
              run ct fuel (.resolveAt i token none metadata false) w
            else
              -- `provider.resolved !== undefined`: return the cache
              (.ok (.val p.resolved), w)
        | _, _ =>
          match metadata.self, st.parent with
          | false, some pid =>
            -- `else if (!metadata.self && this._parent)`: delegate, clearing flags
            run ct fuel
              (.get pid (.plain token) defaultValue
                { metadata with skipSelf := false, self := false }) w
          | _, _ =>
            if ¬defaultValue.isUndefV then (.ok (.val defaultValue), w)
            else if metadata.optional then (.ok (.val .nullV), w)
            else (.error (.unresolved token), w)
    | .resolveAt i k idx metadata skipCyclicCheck =>
      -- Injector._resolve, lines 201-247 (the provider is read from its slot;
      -- registry entries are already normalized by registerProvider)
      match readProv w i k idx with
      | none => (.error .missingInjector, w)
      | some p =>
        if ¬p.resolved.isUndefV then
          -- line 205: short-circuit on the cache
          (.ok (.val p.resolved), w)
        else
          match findInj w i with
          | none => (.error .missingInjector, w)
          | some st =>
            if ¬skipCyclicCheck ∧ p.provide ∈ st.resolving then
              -- line 211: token already on the in-flight stack
              (.error (.cyclic p.provide), w)
            else
              let w₁ := if skipCyclicCheck then w else pushRes i p.provide w
              let w₂ := addEvent (.resolveRun i p.provide) w₁
              match p.kind with
              | .classP useClass =>
                -- metadata lookup uses `provider.useClass` unresolved (line 219):
                -- a ForwardRef carries no metadata of its own
                let injections := match useClass with
                  | .plain c2 => getConstructorMetadata ct c2
                  | .fwd _ => []
                match run ct fuel (.getDependencies i injections) w₂ with
                | (.error e, w₃) => (.error e, w₃)
                | (.ok (.vals args), w₃) =>
                  let ref := ForwardRef.resolve useClass
                  match run ct fuel
                      (.instantiateWithHooks i ref metadata.skipInit args) w₃ with
                  | (.error e, w₄) => (.error e, w₄)
                  | (.ok (.val v), w₄) =>
                    let w₅ := setResolved i k idx v w₄
                    (.ok (.val v), if skipCyclicCheck then w₅ else popRes i p.provide w₅)
                  | (.ok _, w₄) => (.error .typeErr, w₄)
                | (.ok _, w₃) => (.error .typeErr, w₃)
              | .factoryP useFactory deps =>
                match run ct fuel (.getDependencies i (deps.map resolveMetadataArg)) w₂ with
                | (.error e, w₃) => (.error e, w₃)
                | (.ok (.vals args), w₃) =>
                  match ForwardRef.resolve useFactory with
                  | .pureF f =>
                    let v := f args
                    let w₄ := setResolved i k idx v w₃
                    (.ok (.val v), if skipCyclicCheck then w₄ else popRes i p.provide w₄)
                  | .allocF c2 =>
                    let oid := (allocObj c2 w₃).1
                    let w₄ := (allocObj c2 w₃).2
                    let w₅ := setResolved i k idx (.obj oid) w₄
                    (.ok (.val (.obj oid)),
                     if skipCyclicCheck then w₅ else popRes i p.provide w₅)
                | (.ok _, w₃) => (.error .typeErr, w₃)
              | .valueP useValue =>
                let v := ForwardRef.resolve useValue
                let w₃ := setResolved i k idx v w₂
                (.ok (.val v), if skipCyclicCheck then w₃ else popRes i p.provide w₃)
              | .existingP useExisting =>
                -- lines 234-237: delegate through `get`; intentionally no
                -- `provider.resolved` write on the alias
                match run ct fuel
                    (.get i (.plain (ForwardRef.resolve useExisting)) .undefV {}) w₂ with
                | (.error e, w₃) => (.error e, w₃)
                | (.ok (.val v), w₃) =>
                  (.ok (.val v), if skipCyclicCheck then w₃ else popRes i p.provide w₃)
                | (.ok _, w₃) => (.error .typeErr, w₃)
              | .badP =>
                -- line 239; note: thrown past the still-pushed key (no finally)
                (.error (.badProvider p.provide), w₂)
    | .resolveMulti i k j n =>
      match n with
      | 0 => (.ok (.vals []), w)
      | n' + 1 =>
        match run ct fuel (.resolveAt i k (some j) {} false) w with
        | (.error e, w₁) => (.error e, w₁)
        | (.ok (.val v), w₁) =>
          match run ct fuel (.resolveMulti i k (j + 1) n') w₁ with
          | (.error e, w₂) => (.error e, w₂)
          | (.ok (.vals vs), w₂) => (.ok (.vals (v :: vs)), w₂)
          | (.ok _, w₂) => (.error .typeErr, w₂)
        | (.ok _, w₁) => (.error .typeErr, w₁)
    | .getDependencies i metas =>
      -- Injector._getDependencies, lines 249-257
      match metas with
      | [] => (.ok (.vals []), w)
      | m :: ms =>
        match
          (if m.lazy then
            -- `return () => this.get(meta.token, undefined, meta)`: a thunk,
            -- with the metadata passed through unchanged (lazy NOT cleared)
            ((.ok (.val (.thunk i m)) : Except JsError Out), w)
          else
            run ct fuel (.get i m.token .undefV m) w) with
        | (.error e, w₁) => (.error e, w₁)
        | (.ok (.val v), w₁) =>
          match run ct fuel (.getDependencies i ms) w₁ with
          | (.error e, w₂) => (.error e, w₂)
          | (.ok (.vals vs), w₂) => (.ok (.vals (v :: vs)), w₂)
          | (.ok _, w₂) => (.error .typeErr, w₂)
        | (.ok _, w₁) => (.error .typeErr, w₁)
    | .autowire i oid propMetadata =>
      -- Injector.autowire, lines 158-177
      let metaList : List ClassInjMeta :=
        match propMetadata with
        | some pm => [{ properties := pm, params := [] }]
        | none =>
          match lookupHeap w oid with
          | some od => chainCollect ct (fun info => info.injectMeta) od.cls
          | none => []
      -- `.reverse().reduce((result, meta) => ({ ...result, ...meta.properties }), {})`
      let properties := (metaList.reverse).foldl (fun acc m => jsMerge acc m.properties) []
      match run ct fuel
          (.getDependencies i (properties.map (fun kv => resolveMetadataArg kv.2))) w with
      | (.error e, w₁) => (.error e, w₁)
      | (.ok (.vals vs), w₁) =>
        (.ok .unitO,
         ((properties.map (·.1)).zip vs).foldl (fun wa kv => setProp oid kv.1 kv.2 wa) w₁)
      | (.ok _, w₁) => (.error .typeErr, w₁)
    | .instantiateWithHooks i c2 skipInit _args =>
      -- Injector._instantiateWithHooks, lines 279-303 (with _instantiate:
      -- `new Ref(...args)` supports any arity; the constructor body is
      -- external code, so construction just allocates and is recorded)
      let oid := (allocObj c2 w).1
      let w₁ := (allocObj c2 w).2
      let w₂ := addEvent (.constructE c2 oid) w₁
      let levels := chainCollect ct (fun info => info.constructMeta) c2
      let postConstructs := mergePostConstructs levels.reverse
      match run ct fuel (.autowire i oid none) w₂ with
      | (.error e, w₃) => (.error e, w₃)
      | (.ok _, w₃) =>
        -- `if (metadata && !skipInit)`: `metadata` is an array, always truthy
        if skipInit then (.ok (.val (.obj oid)), w₃)
        else
          match invokePostConstructs ct oid c2 postConstructs w₃ with
          | (.error e, w₄) => (.error e, w₄)
          | (.ok _, w₄) => (.ok (.val (.obj oid)), w₄)

/-- Invoking the zero-argument closure a lazy dependency received
(`instance.dep()` in the tests): it re-enters `get` with the captured token
and metadata (the metadata still has `lazy` set; `get` never reads it). -/
def callThunk (ct : ClassTable) (fuel : Nat) (v : Value) (w : World) :
    Except JsError Out × World :=
  match v with
  | .thunk i m => run ct fuel (.get i m.token .undefV m) w
  | _ => (.error .typeErr, w)

/-- A registration argument: a bare class (sugar for
`{ provide: Class, useClass: Class }`) or an explicit provider record. -/
inductive ProvArg where
  | bare (c : Nat)
  | rec2 (p : Prov)

/-- `Injector._normalizeProvider`. -/
def normalizeProvider : ProvArg → Prov
  | .bare c => { provide := .cls c, kind := .classP (.plain c) }
  | .rec2 p => p

/-- `Injector.registerProvider`: a multi provider is appended to the (created
if absent) accumulating entry; a non-multi provider overwrites the slot.  In
JS, a multi registration against a pre-existing non-multi slot calls
`entry.useValue.push` on a value that is not the accumulating array, a
`TypeError`; that crash is modelled as `none`. -/
def registerProvider (st : InjState) (pa : ProvArg) : Option InjState :=
  let p := normalizeProvider pa
  if p.multi then
    match lookupK st.providers p.provide with
    | none => some { st with providers := setK st.providers p.provide (.multiE [p]) }
    | some (.multiE ps) =>
      some { st with providers := setK st.providers p.provide (.multiE (ps ++ [p])) }
    | some (.single _) => none
  else
    some { st with providers := setK st.providers p.provide (.single p) }

def registerAll (st : InjState) : List ProvArg → Option InjState
  | [] => some st
  | pa :: pas =>
    match registerProvider st pa with
    | none => none
    | some st2 => registerAll st2 pas

/-- The `Injector` constructor for an injector with id `i`: it first
self-registers `{ provide: Injector, useValue: this }`, then registers the
given providers in order.  `resolveAndCreateChild` is this with
`parent = some` of the creating injector's id. -/
def newInjector (i : Nat) (provs : List ProvArg) (parent : Option Nat) : Option InjState :=
  registerAll { providers := [], parent := parent, resolving := [] }
    (.rec2 { provide := .injectorClass, kind := .valueP (.plain (.injectorV i)) } :: provs)

/-- Build a world from a list of injector descriptions (id, providers,
parent id); a description whose registration crashes contributes an empty
injector (never exercised below: every world built here registers cleanly). -/
def mkWorld (descr : List (Nat × List ProvArg × Option Nat)) : World :=
  { injs := descr.map (fun d =>
      (d.1, (newInjector d.1 d.2.1 d.2.2).getD { parent := d.2.2 })) }

/-- The `resolved` field of the non-multi provider registered at `k` on
injector `i` (for observation in theorem statements). -/
def resolvedAt (w : World) (i : Nat) (k : Key) : Option Value :=
  match findInj w i with
  | some st =>
    match lookupK st.providers k with
    | some (.single p) => some p.resolved
    | _ => none
  | none => none

/-- The `_resolving` stack of injector `i` (for observation). -/
def resolvingOf (w : World) (i : Nat) : List Key :=
  ((findInj w i).map (·.resolving)).getD []

/-- The post-construct invocations in the trace, in order. -/
def hookNames (w : World) : List String :=
  w.events.filterMap (fun e =>
    match e with
    | .hookE _ n _ => some n
    | _ => none)

/-- The classes instantiated by `new` so far, in order. -/
def constructedClasses (w : World) : List Nat :=
  w.events.filterMap (fun e =>
    match e with
    | .constructE c _ => some c
    | _ => none)

/-- How many times `_resolve` actually ran (got past the cache check) for the
provider keyed `k` on injector `i`. -/
def resolveRunCount (w : World) (i : Nat) (k : Key) : Nat :=
  (w.events.filter (fun e =>
    match e with
    | .resolveRun j k2 => decide (j = i ∧ k2 = k)
    | _ => false)).length

/-- The autowired properties of heap object `oid` (for observation). -/
def propsOf (w : World) (oid : Nat) : List (String × Value) :=
  ((lookupHeap w oid).map (·.props)).getD []

/-- `k` is registered nowhere on the parent chain starting at injector `i`
(the chain is explored up to `fuel` links, `false` beyond). -/
def chainUnregistered : Nat → World → Nat → Key → Bool
  | 0, _, _, _ => false
  | fuel + 1, w, i, k =>
    match findInj w i with
    | none => false
    | some st =>
      (lookupK st.providers k).isNone &&
        (match st.parent with
         | none => true
         | some p => chainUnregistered fuel w p k)

/-- A JS-function-valued result (the only function values the container hands
out are the lazy accessor thunks). -/
def Value.isFn : Value → Bool
  | .thunk _ _ => true
  | _ => false

/-- An empty class side table (no decorated classes). -/
def ctNone : ClassTable := fun _ => {}

/-- Class table for the cyclic pair of the repository test
`should throw a cyclical dependency error`: class 1 (`MyService`) has a
property dependency on token 0, class 2 (`MyService2`) a property dependency
on class 1; token 0 is provided by class 2. -/
def ctCyc : ClassTable := fun c =>
  if c = 1 then
    { injectMeta := some { properties := [("service", .metaA { token := .plain (.tok 0) })] } }
  else if c = 2 then
    { injectMeta := some { properties := [("service", .metaA { token := .plain (.cls 1) })] } }
  else {}

/-- The same pair with class 1's edge marked `lazy` (the repository test
`should not throw a cyclical dependency error when lazy`). -/
def ctCycLazy : ClassTable := fun c =>
  if c = 1 then
    { injectMeta := some
        { properties := [("service", .metaA { token := .plain (.tok 0), lazy := true })] } }
  else if c = 2 then
    { injectMeta := some { properties := [("service", .metaA { token := .plain (.cls 1) })] } }
  else {}

/-- One injector registering class 1 (bare) and `{ provide: token 0,
useClass: class 2 }`. -/
def wCyc : World := mkWorld [(0, [.bare 1, .rec2 { provide := .tok 0, kind := .classP (.plain 2) }], none)]

/-- The injection spec of class 1's lazy property edge (what the constructed
thunk captures). -/
def lazyEdgeMeta : Meta := { token := .plain (.tok 0), lazy := true }

/-- The state after resolving class 1 in the lazy-edge configuration. -/
def lazyRunW : World := (run ctCycLazy 30 (.get 0 (.plain (.cls 1)) .undefV {}) wCyc).2

/-- Claim C2: for the cyclic pair (class 1 depends on token 0 which is class
2, class 2 depends on class 1, both eager) resolving class 1 from an empty
cache fails with the cyclic-dependency error; with class 1's edge lazy the
same resolution succeeds, the injected property is a zero-argument accessor
and class 2 is not constructed, and invoking the accessor constructs and
returns the class-2 instance. -/
theorem c2_cyclic_pair :
    (run ctCyc 30 (.get 0 (.plain (.cls 1)) .undefV {}) wCyc).1 = .error (.cyclic (.cls 1))
    ∧ (run ctCycLazy 30 (.get 0 (.plain (.cls 1)) .undefV {}) wCyc).1 = .ok (.val (.obj 0))
    ∧ constructedClasses lazyRunW = [1]
    ∧ propsOf lazyRunW 0 = [("service", .thunk 0 lazyEdgeMeta)]
    ∧ (callThunk ctCycLazy 30 (.thunk 0 lazyEdgeMeta) lazyRunW).1 = .ok (.val (.obj 1))
    ∧ constructedClasses (callThunk ctCycLazy 30 (.thunk 0 lazyEdgeMeta) lazyRunW).2 = [1, 2]
    ∧ (lookupHeap (callThunk ctCycLazy 30 (.thunk 0 lazyEdgeMeta) lazyRunW).2 1).map (fun o => o.cls)
        = some 2 :=
  ⟨rfl, rfl, rfl, rfl, rfl, rfl, rfl⟩

/-- Class table in which class 1 has one eager property dependency on the
never-registered token 7. -/
def ctLeak : ClassTable := fun c =>
  if c = 1 then
    { injectMeta := some { properties := [("dep", .metaA { token := .plain (.tok 7) })] } }
  else {}

/-- One injector registering only class 1. -/
def wLeak : World := mkWorld [(0, [.bare 1], none)]

/-- The state left behind by the failed resolution of class 1 in `wLeak`. -/
def leakRunW : World := (run ctLeak 30 (.get 0 (.plain (.cls 1)) .undefV {}) wLeak).2

/-- Claim C4 (the code at the failing input): `_resolve` has no try/finally,
so a `get` that fails (here: class 1's dependency token 7 is unregistered)
leaves the pushed key on the `_resolving` stack — the stack is `[class 1]`,
not `[]`, between the two top-level calls — and the second, independent
`get` of class 1 then fails with a spurious cyclic-dependency error even
though no cycle exists. -/
theorem c4_resolving_leak :
    (run ctLeak 30 (.get 0 (.plain (.cls 1)) .undefV {}) wLeak).1 = .error (.unresolved (.tok 7))
    ∧ resolvingOf leakRunW 0 = [.cls 1]
    ∧ ([Key.cls 1] : List Key) ≠ []
    ∧ (run ctLeak 30 (.get 0 (.plain (.cls 1)) .undefV {}) leakRunW).1
        = .error (.cyclic (.cls 1)) :=
  ⟨rfl, rfl, by decide, rfl⟩

/-- Parent injector 0 registers `{ provide: token 0, useValue: "blorg",
multi: true }`; child injector 1 registers `{ provide: token 0, useClass:
class 7, multi: true }` (the repository test `should get multiple
providers`). -/
def wMulti : World := mkWorld
  [(0, [.rec2 { provide := .tok 0, kind := .valueP (.plain (.str "blorg")), multi := true }], none),
   (1, [.rec2 { provide := .tok 0, kind := .classP (.plain 7), multi := true }], some 0)]

/-- Same, but the parent's registration is not itself multi (the repository
test `should get multiple providers when the parent is not multi`). -/
def wMultiB : World := mkWorld
  [(0, [.rec2 { provide := .tok 0, kind := .valueP (.plain (.str "blorg")) }], none),
   (1, [.rec2 { provide := .tok 0, kind := .classP (.plain 7), multi := true }], some 0)]

/-- Claim C5: with a parent multi value provider `"blorg"` and a child multi
class provider for class 7, `child.get` yields a two-element list whose first
element is the freshly constructed class-7 instance and whose second element
is `"blorg"` — local multi entries precede inherited ones — and the same
holds when the parent's registration for the token is not itself multi (its
non-list result is coerced into a one-element list). -/
theorem c5_multi_merge :
    (run ctNone 30 (.get 1 (.plain (.tok 0)) .undefV {}) wMulti).1
        = .ok (.val (.arr [.obj 0, .str "blorg"]))
    ∧ (lookupHeap (run ctNone 30 (.get 1 (.plain (.tok 0)) .undefV {}) wMulti).2 0).map
        (fun o => o.cls) = some 7
    ∧ (run ctNone 30 (.get 1 (.plain (.tok 0)) .undefV {}) wMultiB).1
        = .ok (.val (.arr [.obj 0, .str "blorg"]))
    ∧ (lookupHeap (run ctNone 30 (.get 1 (.plain (.tok 0)) .undefV {}) wMultiB).2 0).map
        (fun o => o.cls) = some 7 :=
  ⟨rfl, rfl, rfl, rfl⟩

/-- Class table for the hook-ordering scenario: base class 1 declares
post-construct hooks `fn`, `fn3` (own methods `fn`, `fn3`); subclass 2
extends it, declares hooks `fn2`, `fn3`, overrides method `fn3` (own methods
`fn2`, `fn3`), and has one property dependency on token 9. -/
def ctHooks : ClassTable := fun c =>
  if c = 1 then { constructMeta := some ["fn", "fn3"], methods := ["fn", "fn3"] }
  else if c = 2 then
    { parentC := some 1, constructMeta := some ["fn2", "fn3"], methods := ["fn2", "fn3"],
      injectMeta := some { properties := [("dep", .metaA { token := .plain (.tok 9) })] } }
  else {}

/-- One injector registering class 2 (bare) and a value for token 9. -/
def wHooks : World := mkWorld
  [(0, [.bare 2, .rec2 { provide := .tok 9, kind := .valueP (.plain (.str "d")) }], none)]

/-- Claim C8 counterexample: resolving class 2 invokes the hooks in the order
`fn`, `fn3`, `fn2` — the duplicated name `fn3` keeps the position of its
FIRST occurrence in root-to-leaf order (the base class's position), so the
order differs from `fn`, `fn2`, `fn3`, the order the claim's
"invoked ... at the most-derived position" requires. -/
theorem c8_counterexample :
    hookNames (run ctHooks 30 (.get 0 (.plain (.cls 2)) .undefV {}) wHooks).2
        = ["fn", "fn3", "fn2"]
    ∧ (["fn", "fn3", "fn2"] : List String) ≠ ["fn", "fn2", "fn3"] :=
  ⟨rfl, by decide⟩

/-- Claim C8 as amended: hook names are collected from own and inherited
metadata merged root-to-leaf; a name declared at several levels is invoked
exactly once, at the position of its first occurrence in that root-to-leaf
order (the base class's position), with dynamic dispatch selecting the
subtype's implementation (the `fn3` invocation is owned by class 2); hooks
run after autowiring (the trace shows construction, then the dependency
resolution performed by autowire, then the hooks; the autowired property is
set on the instance), and are suppressed entirely by the skip-initialization
flag. -/
theorem c8_amended :
    (run ctHooks 30 (.get 0 (.plain (.cls 2)) .undefV {}) wHooks).1 = .ok (.val (.obj 0))
    ∧ (run ctHooks 30 (.get 0 (.plain (.cls 2)) .undefV {}) wHooks).2.events
        = [.resolveRun 0 (.cls 2), .constructE 2 0, .resolveRun 0 (.tok 9),
           .hookE 0 "fn" 1, .hookE 0 "fn3" 2, .hookE 0 "fn2" 2]
    ∧ (hookNames (run ctHooks 30 (.get 0 (.plain (.cls 2)) .undefV {}) wHooks).2).count "fn3" = 1
    ∧ propsOf (run ctHooks 30 (.get 0 (.plain (.cls 2)) .undefV {}) wHooks).2 0
        = [("dep", .str "d")]
    ∧ hookNames (run ctHooks 30 (.get 0 (.plain (.cls 2)) .undefV { skipInit := true }) wHooks).2
        = [] :=
  ⟨rfl, rfl, rfl, rfl, rfl⟩

/-- One injector with a value provider whose `useValue` is `undefined`. -/
def wUndefVal : World := mkWorld
  [(0, [.rec2 { provide := .tok 0, kind := .valueP (.plain .undefV) }], none)]

/-- The state after one `get` of token 0 on `wUndefVal`. -/
def undefRunW : World := (run ctNone 30 (.get 0 (.plain (.tok 0)) .undefV {}) wUndefVal).2

/-- Claim C6 counterexample: with `useValue: undefined`, both of two
successive `get` calls return `undefined`, but the provider is resolved TWICE
(two `_resolve` runs got past the cache check), and after both calls the
`resolved` field still holds `undefined` — the cache test is
`resolved !== undefined`, not a presence flag, so the claim's
"resolved at most once" is false. -/
theorem c6_counterexample :
    (run ctNone 30 (.get 0 (.plain (.tok 0)) .undefV {}) wUndefVal).1 = .ok (.val .undefV)
    ∧ (run ctNone 30 (.get 0 (.plain (.tok 0)) .undefV {}) undefRunW).1 = .ok (.val .undefV)
    ∧ resolveRunCount (run ctNone 30 (.get 0 (.plain (.tok 0)) .undefV {}) undefRunW).2 0 (.tok 0) = 2
    ∧ ¬ (2 : Nat) ≤ 1
    ∧ resolvedAt (run ctNone 30 (.get 0 (.plain (.tok 0)) .undefV {}) undefRunW).2 0 (.tok 0)
        = some .undefV :=
  ⟨rfl, rfl, rfl, by decide, rfl⟩

/-- One injector with `{ provide: token 0, useValue: "blorg" }`. -/
def wStrVal : World := mkWorld
  [(0, [.rec2 { provide := .tok 0, kind := .valueP (.plain (.str "blorg")) }], none)]

/-- Claim C3 counterexample: `get(token 0, undefined, { lazy: true })` on the
injector holding a value provider does NOT return a zero-argument function —
`Injector.get` never reads `metadata.lazy` — it walks the provider and
returns the fully resolved value `"blorg"` immediately. -/
theorem c3_counterexample :
    (run ctNone 30 (.get 0 (.plain (.tok 0)) .undefV { token := .plain (.tok 0), lazy := true })
        wStrVal).1 = .ok (.val (.str "blorg"))
    ∧ (Value.str "blorg").isFn = false :=
  ⟨rfl, rfl⟩

/-- Pointwise relation on `Option`. -/
def optMatch (R : α → α → Prop) : Option α → Option α → Prop
  | none, none => True
  | some a, some b => R a b
  | _, _ => False

/-- Shape agreement between two provider records: everything except the
mutable `resolved` cache is equal, and for an alias (`useExisting`) provider —
whose `resolved` the interpreter never writes — the cache is equal too. -/
def provMatch (p q : Prov) : Prop :=
  p.provide = q.provide ∧ p.multi = q.multi ∧ p.kind = q.kind ∧
    (p.kind.isExisting = true → p.resolved = q.resolved)

theorem provMatch_refl (p : Prov) : provMatch p p :=
  ⟨rfl, rfl, rfl, fun _ => rfl⟩

theorem provMatch_trans {p q r : Prov} (h1 : provMatch p q) (h2 : provMatch q r) :
    provMatch p r := by
  obtain ⟨a1, b1, c1, d1⟩ := h1
  obtain ⟨a2, b2, c2, d2⟩ := h2
  exact ⟨a1.trans a2, b1.trans b2, c1.trans c2,
    fun hx => (d1 hx).trans (d2 (by rw [← c1]; exact hx))⟩

def entryMatch : Entry → Entry → Prop
  | .single p, .single q => provMatch p q
  | .multiE ps, .multiE qs => List.Forall₂ provMatch ps qs
  | _, _ => False

theorem forall2_self {R : α → α → Prop} (h : ∀ a, R a a) : ∀ l, List.Forall₂ R l l
  | [] => .nil
  | a :: l => .cons (h a) (forall2_self h l)

theorem forall2_trans2 {R : α → α → Prop} (h : ∀ a b c, R a b → R b c → R a c) :
    ∀ {l1 l2 l3 : List α}, List.Forall₂ R l1 l2 → List.Forall₂ R l2 l3 →
      List.Forall₂ R l1 l3 := by
  intro l1 l2 l3 h12
  induction h12 generalizing l3 with
  | nil => intro h23; cases h23; exact .nil
  | cons hab htail ih =>
    intro h23
    cases h23 with
    | cons hbc htail2 => exact .cons (h _ _ _ hab hbc) (ih htail2)

theorem entryMatch_refl : ∀ e, entryMatch e e
  | .single p => provMatch_refl p
  | .multiE ps => forall2_self provMatch_refl ps

theorem entryMatch_trans : ∀ {e1 e2 e3 : Entry},
    entryMatch e1 e2 → entryMatch e2 e3 → entryMatch e1 e3 := by
  intro e1 e2 e3 h1 h2
  cases e1 <;> cases e2 <;> cases e3 <;>
    simp only [entryMatch] at h1 h2 ⊢
  · exact provMatch_trans h1 h2
  · exact forall2_trans2 (R := provMatch) (fun _ _ _ ha hb => provMatch_trans ha hb) h1 h2

/-- Shape agreement between two injector states: same parent, same registry
keys and provider shapes (`resolving` is unconstrained). -/
def stMatch (s t : InjState) : Prop :=
  s.parent = t.parent ∧
    List.Forall₂ (fun a b => a.1 = b.1 ∧ entryMatch a.2 b.2) s.providers t.providers

theorem stMatch_refl (s : InjState) : stMatch s s :=
  ⟨rfl, forall2_self (fun a => ⟨rfl, entryMatch_refl a.2⟩) s.providers⟩

theorem stMatch_trans {s t u : InjState} (h1 : stMatch s t) (h2 : stMatch t u) :
    stMatch s u :=
  ⟨h1.1.trans h2.1,
   forall2_trans2
     (fun _ _ _ hab hbc => ⟨hab.1.trans hbc.1, entryMatch_trans hab.2 hbc.2⟩)
     h1.2 h2.2⟩

/-- Shape agreement between two worlds: the injector list is pointwise
shape-equal (the heap, counters, trace and `resolving` stacks are free).  The
interpreter only ever moves a world to a shape-equal world: it never creates,
removes or re-keys injectors or providers, never changes a provider's kind,
and never writes the `resolved` field of an alias provider. -/
def worldMatch (w v : World) : Prop :=
  List.Forall₂ (fun a b => a.1 = b.1 ∧ stMatch a.2 b.2) w.injs v.injs

theorem worldMatch_refl (w : World) : worldMatch w w :=
  forall2_self (fun a => ⟨rfl, stMatch_refl a.2⟩) w.injs

theorem worldMatch_trans {w v u : World} (h1 : worldMatch w v) (h2 : worldMatch v u) :
    worldMatch w u :=
  forall2_trans2
    (fun _ _ _ hab hbc => ⟨hab.1.trans hbc.1, stMatch_trans hab.2 hbc.2⟩)
    h1 h2

theorem worldMatch_of_injs_eq {w v : World} (h : v.injs = w.injs) : worldMatch w v := by
  unfold worldMatch
  rw [h]
  exact forall2_self (fun a => ⟨rfl, stMatch_refl a.2⟩) _

theorem wm_addEvent (e : Event) (w : World) : worldMatch w (addEvent e w) :=
  worldMatch_of_injs_eq rfl

theorem wm_allocObj (c : Nat) (w : World) : worldMatch w (allocObj c w).2 :=
  worldMatch_of_injs_eq rfl

theorem wm_setProp (oid : Nat) (key : String) (v : Value) (w : World) :
    worldMatch w (setProp oid key v w) :=
  worldMatch_of_injs_eq rfl

/-- Match transfer through keyed `find?` lookup. -/
theorem findMap_match {κ α : Type} [DecidableEq κ] {T : α → α → Prop}
    {l l2 : List (κ × α)}
    (h : List.Forall₂ (fun a b => a.1 = b.1 ∧ T a.2 b.2) l l2) (key : κ) :
    optMatch T ((l.find? (fun p => p.1 = key)).map (·.2))
      ((l2.find? (fun p => p.1 = key)).map (·.2)) := by
  induction h with
  | nil => exact trivial
  | cons hab htail ih =>
    rename_i a b l1 l2'
    by_cases hk : a.1 = key
    · have hbk : b.1 = key := by rw [← hab.1]; exact hk
      rw [List.find?_cons_of_pos _ (by simpa using hk),
        List.find?_cons_of_pos _ (by simpa using hbk)]
      exact hab.2
    · have hbk : ¬ b.1 = key := by rw [← hab.1]; exact hk
      rw [List.find?_cons_of_neg _ (by simpa using hk),
        List.find?_cons_of_neg _ (by simpa using hbk)]
      exact ih

theorem lookupK_match {l l2 : List (Key × Entry)}
    (h : List.Forall₂ (fun a b => a.1 = b.1 ∧ entryMatch a.2 b.2) l l2) (k : Key) :
    optMatch entryMatch (lookupK l k) (lookupK l2 k) :=
  findMap_match h k

theorem findInj_match {w v : World} (h : worldMatch w v) (i : Nat) :
    optMatch stMatch (findInj w i) (findInj v i) :=
  findMap_match h i

theorem get?_match {R : α → α → Prop} :
    ∀ {l l2 : List α}, List.Forall₂ R l l2 → ∀ j, optMatch R (l.get? j) (l2.get? j) := by
  intro l l2 h
  induction h with
  | nil => intro j; cases j <;> exact trivial
  | cons hab htail ih =>
    intro j
    cases j with
    | zero => exact hab
    | succ j => exact ih j

theorem readProv_match {w v : World} (h : worldMatch w v) (i : Nat) (k : Key)
    (idx : Option Nat) :
    optMatch provMatch (readProv w i k idx) (readProv v i k idx) := by
  have hfi := findInj_match h i
  rcases hw : findInj w i with _ | s <;> rcases hv : findInj v i with _ | t <;>
    rw [hw, hv] at hfi
  · simp [readProv, hw, hv, optMatch]
  · exact hfi.elim
  · exact hfi.elim
  · have hlk := lookupK_match hfi.2 k
    rcases hws : lookupK s.providers k with _ | e <;>
      rcases hvs : lookupK t.providers k with _ | e2 <;>
      rw [hws, hvs] at hlk
    · simp only [readProv, hw, hv, hws, hvs]
      cases idx <;> simp [optMatch]
    · exact hlk.elim
    · exact hlk.elim
    · simp only [readProv, hw, hv, hws, hvs]
      cases e with
      | single p =>
        cases e2 with
        | single q =>
          cases idx with
          | none => simpa [optMatch] using hlk
          | some j => simp [optMatch]
        | multiE qs => exact hlk.elim
      | multiE ps =>
        cases e2 with
        | single q => exact hlk.elim
        | multiE qs =>
          cases idx with
          | none => simp [optMatch]
          | some j => exact get?_match hlk j

theorem updInjL_match {i : Nat} {f : InjState → InjState} :
    ∀ {l : List (Nat × InjState)},
      (∀ s, ((l.find? (fun p => p.1 = i)).map (·.2)) = some s → stMatch s (f s)) →
      List.Forall₂ (fun a b => a.1 = b.1 ∧ stMatch a.2 b.2) l (updInjL l i f) := by
  intro l
  induction l with
  | nil => intro _; exact .nil
  | cons p rest ih =>
    intro h
    by_cases hp : p.1 = i
    · have hfind : ((p :: rest).find? (fun q => q.1 = i)).map (·.2) = some p.2 := by
        rw [List.find?_cons_of_pos _ (by simpa using hp)]; rfl
      simp only [updInjL, hp, if_pos]
      exact .cons ⟨hp, h p.2 hfind⟩ (forall2_self (fun a => ⟨rfl, stMatch_refl a.2⟩) rest)
    · simp only [updInjL, hp, if_neg, not_false_iff]
      refine .cons ⟨rfl, stMatch_refl p.2⟩ (ih ?_)
      intro s hs
      refine h s ?_
      rw [List.find?_cons_of_neg _ (by simpa using hp)]
      exact hs

theorem wm_updInj {w : World} {i : Nat} {f : InjState → InjState}
    (hf : ∀ s, stMatch s (f s)) : worldMatch w (updInj w i f) :=
  updInjL_match (fun s _ => hf s)

theorem stMatch_resolving (s : InjState) (r : List Key) :
    stMatch s { s with resolving := r } :=
  ⟨rfl, forall2_self (fun a => ⟨rfl, entryMatch_refl a.2⟩) s.providers⟩

theorem wm_pushRes (i : Nat) (k : Key) (w : World) : worldMatch w (pushRes i k w) :=
  wm_updInj (fun s => stMatch_resolving s _)

theorem wm_popRes (i : Nat) (k : Key) (w : World) : worldMatch w (popRes i k w) :=
  wm_updInj (fun s => stMatch_resolving s _)

theorem updEntryL_match {k : Key} {f : Entry → Entry} :
    ∀ {l : List (Key × Entry)},
      (∀ e, lookupK l k = some e → entryMatch e (f e)) →
      List.Forall₂ (fun a b => a.1 = b.1 ∧ entryMatch a.2 b.2) l (updEntryL l k f) := by
  intro l
  induction l with
  | nil => intro _; exact .nil
  | cons kv rest ih =>
    intro h
    by_cases hk : kv.1 = k
    · have hfind : lookupK (kv :: rest) k = some kv.2 := by
        unfold lookupK
        rw [List.find?_cons_of_pos _ (by simpa using hk)]; rfl
      simp only [updEntryL, hk, if_pos]
      exact .cons ⟨hk, h kv.2 hfind⟩
        (forall2_self (fun a => ⟨rfl, entryMatch_refl a.2⟩) rest)
    · simp only [updEntryL, hk, if_neg, not_false_iff]
      refine .cons ⟨rfl, entryMatch_refl kv.2⟩ (ih ?_)
      intro e he
      refine h e ?_
      unfold lookupK
      rw [List.find?_cons_of_neg _ (by simpa using hk)]
      exact he

theorem setResolvedAt_match {v : Value} :
    ∀ (ps : List Prov) (j : Nat),
      (∀ q, ps.get? j = some q → q.kind.isExisting = false) →
      List.Forall₂ provMatch ps (setResolvedAt ps j v) := by
  intro ps
  induction ps with
  | nil => intro j _; exact .nil
  | cons p rest ih =>
    intro j h
    cases j with
    | zero =>
      refine .cons ⟨rfl, rfl, rfl, fun hex => ?_⟩ (forall2_self provMatch_refl rest)
      exact absurd hex (by simp [h p rfl])
    | succ j =>
      exact .cons (provMatch_refl p) (ih j (fun q hq => h q hq))

theorem wm_setResolved {w : World} {i : Nat} {k : Key} {idx : Option Nat}
    {v : Value} {q : Prov}
    (hq : readProv w i k idx = some q) (hke : q.kind.isExisting = false) :
    worldMatch w (setResolved i k idx v w) := by
  unfold setResolved
  apply updInjL_match
  intro s hs
  have hs2 : findInj w i = some s := hs
  unfold readProv at hq
  simp only [hs2] at hq
  refine ⟨rfl, updEntryL_match ?_⟩
  intro e he
  rw [he] at hq
  cases e with
  | single p =>
    cases idx with
    | none =>
      have hpq : p = q := by
        simpa using hq
      subst hpq
      exact ⟨rfl, rfl, rfl, fun hex => absurd hex (by simp [hke])⟩
    | some j => exact entryMatch_refl _
  | multiE ps =>
    cases idx with
    | none => exact entryMatch_refl _
    | some j =>
      have hget : ps.get? j = some q := by simpa using hq
      exact setResolvedAt_match ps j
        (fun r hr => by rw [hget] at hr; cases hr; exact hke)

theorem wm_w2 (b : Bool) (i : Nat) (k : Key) (e : Event) (w : World) :
    worldMatch w (addEvent e (if b then w else pushRes i k w)) := by
  cases b
  · exact worldMatch_trans (wm_pushRes i k w) (wm_addEvent e _)
  · exact wm_addEvent e w

theorem wm_popIf {x y : World} (b : Bool) (i : Nat) (k : Key) (h : worldMatch x y) :
    worldMatch x (if b then y else popRes i k y) := by
  cases b
  · exact worldMatch_trans h (wm_popRes i k y)
  · exact h

theorem wm_invokeHooks (ct : ClassTable) (oid c2 : Nat) :
    ∀ (ns : List String) (w : World),
      worldMatch w (invokePostConstructs ct oid c2 ns w).2 := by
  intro ns
  induction ns with
  | nil => intro w; exact worldMatch_refl w
  | cons n rest ih =>
    intro w
    simp only [invokePostConstructs]
    split
    · exact worldMatch_refl w
    · exact worldMatch_trans (wm_addEvent _ w) (ih _)

theorem wm_foldProps (oid : Nat) :
    ∀ (l : List (String × Value)) {x y : World}, worldMatch x y →
      worldMatch x (l.foldl (fun wa kv => setProp oid kv.1 kv.2 wa) y) := by
  intro l
  induction l with
  | nil => intro x y h; exact h
  | cons kv rest ih =>
    intro x y h
    exact ih (worldMatch_trans h (wm_setProp oid kv.1 kv.2 y))

theorem wm_setResolved_of {w w4 : World} {i : Nat} {k : Key} {idx : Option Nat}
    {p : Prov} (hw : worldMatch w w4) (hp : readProv w i k idx = some p)
    (hke : p.kind.isExisting = false) (v : Value) :
    worldMatch w (setResolved i k idx v w4) := by
  have hr := readProv_match hw i k idx
  rw [hp] at hr
  cases hq2 : readProv w4 i k idx with
  | none => rw [hq2] at hr; exact hr.elim
  | some q =>
    rw [hq2] at hr
    have hq : q.kind.isExisting = false := by
      rw [← hr.2.2.1]; exact hke
    exact worldMatch_trans hw (wm_setResolved hq2 hq)

theorem wm_run_step {ct : ClassTable} {fuel : Nat} {c : Call} {a w : World}
    {r : Except JsError Out} {w2 : World}
    (ih : ∀ c2 w0, worldMatch w0 (run ct fuel c2 w0).2)
    (h0 : worldMatch a w) (h : run ct fuel c w = (r, w2)) : worldMatch a w2 := by
  have h1 := ih c w
  rw [h] at h1
  exact worldMatch_trans h0 h1

/-- The interpreter preserves world shape: any `run` moves a world to a
shape-matching world (same injectors, same registries up to `resolved`
writes on non-alias providers). -/
theorem run_match (ct : ClassTable) : ∀ (fuel : Nat) (c : Call) (w : World),
    worldMatch w (run ct fuel c w).2 := by
  intro fuel
  induction fuel with
  | zero => intro c w; exact worldMatch_refl w
  | succ fuel ih =>
    intro c w
    cases c with
    | get i tokArg d m =>
      simp only [run]
      split
      · exact worldMatch_refl _
      · split
        · -- local entry found and skipSelf clear
          split
          · -- multi entry
            split
            · rename_i e w1 heq
              exact wm_run_step ih (worldMatch_refl w) heq
            · rename_i vs w1 heq
              split
              · split
                · rename_i e w2 heq2
                  exact wm_run_step ih (wm_run_step ih (worldMatch_refl w) heq) heq2
                · rename_i pv w2 heq2
                  exact wm_run_step ih (wm_run_step ih (worldMatch_refl w) heq) heq2
                · rename_i w2 heq2
                  exact wm_run_step ih (wm_run_step ih (worldMatch_refl w) heq) heq2
              · exact wm_run_step ih (worldMatch_refl w) heq
            · rename_i o w1 heq
              exact wm_run_step ih (worldMatch_refl w) heq
          · -- single entry
            split
            · exact ih _ _
            · exact worldMatch_refl _
        all_goals
          split
          · exact ih _ _
          all_goals split <;> (try split) <;> exact worldMatch_refl _
    | resolveAt i k idx m sc =>
      simp only [run]
      split
      · exact worldMatch_refl _
      · rename_i p hp
        split
        · exact worldMatch_refl _
        · split
          · exact worldMatch_refl _
          · rename_i st hst
            split
            · exact worldMatch_refl _
            · split
              · -- classP
                rename_i useClass hkind
                split
                · rename_i e w3 heq
                  exact wm_run_step ih (wm_w2 sc i p.provide _ w) heq
                · rename_i args w3 heq
                  split
                  · rename_i e w4 heq2
                    exact wm_run_step ih
                      (wm_run_step ih (wm_w2 sc i p.provide _ w) heq) heq2
                  · rename_i v w4 heq2
                    refine wm_popIf sc i p.provide ?_
                    refine wm_setResolved_of
                      (wm_run_step ih
                        (wm_run_step ih (wm_w2 sc i p.provide _ w) heq) heq2)
                      hp ?_ v
                    simp [hkind, PKind.isExisting]
                  · rename_i w4 heq2
                    exact wm_run_step ih
                      (wm_run_step ih (wm_w2 sc i p.provide _ w) heq) heq2
                · rename_i o w3 heq
                  exact wm_run_step ih (wm_w2 sc i p.provide _ w) heq
              · -- factoryP
                rename_i useFactory deps hkind
                split
                · rename_i e w3 heq
                  exact wm_run_step ih (wm_w2 sc i p.provide _ w) heq
                · rename_i args w3 heq
                  split
                  · -- pureF
                    rename_i f hff
                    refine wm_popIf sc i p.provide ?_
                    refine wm_setResolved_of
                      (wm_run_step ih (wm_w2 sc i p.provide _ w) heq) hp ?_ _
                    simp [hkind, PKind.isExisting]
                  · -- allocF
                    rename_i c2 hff
                    refine wm_popIf sc i p.provide ?_
                    refine wm_setResolved_of
                      (worldMatch_trans
                        (wm_run_step ih (wm_w2 sc i p.provide _ w) heq)
                        (wm_allocObj c2 w3))
                      hp ?_ _
                    simp [hkind, PKind.isExisting]
                · rename_i o w3 heq
                  exact wm_run_step ih (wm_w2 sc i p.provide _ w) heq
              · -- valueP
                rename_i useValue hkind
                refine wm_popIf sc i p.provide ?_
                refine wm_setResolved_of (wm_w2 sc i p.provide _ w) hp ?_ _
                simp [hkind, PKind.isExisting]
              · -- existingP
                rename_i useExisting hkind
                split
                · rename_i e w3 heq
                  exact wm_run_step ih (wm_w2 sc i p.provide _ w) heq
                · rename_i v w3 heq
                  exact wm_popIf sc i p.provide
                    (wm_run_step ih (wm_w2 sc i p.provide _ w) heq)
                · rename_i w3 heq
                  exact wm_run_step ih (wm_w2 sc i p.provide _ w) heq
              · -- badP
                exact wm_w2 sc i p.provide _ w
    | resolveMulti i k j n =>
      simp only [run]
      split
      · exact worldMatch_refl _
      · split
        · rename_i e w1 heq
          exact wm_run_step ih (worldMatch_refl w) heq
        · rename_i v w1 heq
          split
          · rename_i e w2 heq2
            exact wm_run_step ih (wm_run_step ih (worldMatch_refl w) heq) heq2
          · rename_i vs w2 heq2
            exact wm_run_step ih (wm_run_step ih (worldMatch_refl w) heq) heq2
          · rename_i w2 heq2
            exact wm_run_step ih (wm_run_step ih (worldMatch_refl w) heq) heq2
        · rename_i w1 heq
          exact wm_run_step ih (worldMatch_refl w) heq
    | getDependencies i metas =>
      simp only [run]
      split
      · exact worldMatch_refl _
      · rename_i m ms
        have hhead : ∀ (r : Except JsError Out) (w1 : World),
            (if m.lazy then ((.ok (.val (.thunk i m)) : Except JsError Out), w)
             else run ct fuel (.get i m.token .undefV m) w) = (r, w1) →
            worldMatch w w1 := by
          intro r w1 hif
          by_cases hml : m.lazy
          · rw [if_pos hml] at hif
            cases hif
            exact worldMatch_refl w
          · rw [if_neg hml] at hif
            exact wm_run_step ih (worldMatch_refl w) hif
        split
        · rename_i e w1 heq
          exact hhead _ _ heq
        · rename_i v w1 heq
          split
          · rename_i e w2 heq2
            exact wm_run_step ih (hhead _ _ heq) heq2
          · rename_i vs w2 heq2
            exact wm_run_step ih (hhead _ _ heq) heq2
          · rename_i w2 heq2
            exact wm_run_step ih (hhead _ _ heq) heq2
        · rename_i w1 heq
          exact hhead _ _ heq
    | autowire i oid propMetadata =>
      simp only [run]
      split
      · rename_i e w1 heq
        exact wm_run_step ih (worldMatch_refl w) heq
      · rename_i vs w1 heq
        exact wm_foldProps oid _ (wm_run_step ih (worldMatch_refl w) heq)
      · rename_i w1 heq
        exact wm_run_step ih (worldMatch_refl w) heq
    | instantiateWithHooks i c2 skipInit args =>
      simp only [run]
      split
      · rename_i e w3 heq
        exact wm_run_step ih
          (worldMatch_trans (wm_allocObj c2 w) (wm_addEvent _ _)) heq
      · rename_i o w3 heq
        split
        · exact wm_run_step ih
            (worldMatch_trans (wm_allocObj c2 w) (wm_addEvent _ _)) heq
        · split
          · rename_i e w4 heq2
            exact worldMatch_trans
              (wm_run_step ih
                (worldMatch_trans (wm_allocObj c2 w) (wm_addEvent _ _)) heq)
              (by
                have := wm_invokeHooks ct (allocObj c2 w).1 c2
                  (mergePostConstructs
                    (chainCollect ct (fun info => info.constructMeta) c2).reverse) w3
                rw [heq2] at this
                exact this)
          · rename_i u w4 heq2
            exact worldMatch_trans
              (wm_run_step ih
                (worldMatch_trans (wm_allocObj c2 w) (wm_addEvent _ _)) heq)
              (by
                have := wm_invokeHooks ct (allocObj c2 w).1 c2
                  (mergePostConstructs
                    (chainCollect ct (fun info => info.constructMeta) c2).reverse) w3
                rw [heq2] at this
                exact this)

theorem findInj_updInj (w : World) (i : Nat) (f : InjState → InjState) :
    findInj (updInj w i f) i = (findInj w i).map f := by
  show ((updInjL w.injs i f).find? (fun p => p.1 = i)).map (·.2)
      = ((w.injs.find? (fun p => p.1 = i)).map (·.2)).map f
  induction w.injs with
  | nil => rfl
  | cons p rest ih =>
    by_cases hp : p.1 = i
    · simp only [updInjL, hp, if_pos]
      rw [List.find?_cons_of_pos _ (by simp [hp]),
        List.find?_cons_of_pos _ (by simp [hp])]
      rfl
    · simp only [updInjL, hp, if_neg, not_false_iff]
      rw [List.find?_cons_of_neg _ (by simpa using hp),
        List.find?_cons_of_neg _ (by simpa using hp)]
      exact ih

theorem lookupK_updEntryL (l : List (Key × Entry)) (k : Key) (f : Entry → Entry) :
    lookupK (updEntryL l k f) k = (lookupK l k).map f := by
  induction l with
  | nil => rfl
  | cons kv rest ih =>
    by_cases hk : kv.1 = k
    · simp only [updEntryL, hk, if_pos]
      unfold lookupK
      rw [List.find?_cons_of_pos _ (by simp [hk]),
        List.find?_cons_of_pos _ (by simp [hk])]
      rfl
    · simp only [updEntryL, hk, if_neg, not_false_iff]
      unfold lookupK
      rw [List.find?_cons_of_neg _ (by simpa using hk),
        List.find?_cons_of_neg _ (by simpa using hk)]
      exact ih

theorem removeFirst_append_of_not_mem {l : List Key} {k : Key} (h : k ∉ l) :
    removeFirst (l ++ [k]) k = l := by
  induction l with
  | nil => simp [removeFirst]
  | cons x xs ih =>
    have hx : ¬ x = k := fun hxk => h (hxk ▸ List.mem_cons_self x xs)
    simp only [List.cons_append, removeFirst, hx, if_neg, not_false_iff]
    exact congrArg (List.cons x) (ih (fun hm => h (List.mem_cons_of_mem x hm)))

theorem spliceOne_append_of_not_mem {l : List Key} {k : Key} (h : k ∉ l) :
    spliceOne (l ++ [k]) k = l := by
  unfold spliceOne
  rw [if_pos (by simp), removeFirst_append_of_not_mem h]

/-- Matching entries found through a match chain: a world shape-matching `w`
still has a `single` entry (of equal kind) at any slot where `w` has one. -/
theorem single_match {w w2 : World} (h : worldMatch w w2) {i : Nat} {k : Key}
    {st : InjState} {p : Prov}
    (hfi : findInj w i = some st) (hlk : lookupK st.providers k = some (.single p)) :
    ∃ st2 q, findInj w2 i = some st2 ∧ lookupK st2.providers k = some (.single q) ∧
      st.parent = st2.parent ∧ provMatch p q := by
  have hf := findInj_match h i
  rw [hfi] at hf
  cases hfi2 : findInj w2 i with
  | none => rw [hfi2] at hf; exact hf.elim
  | some st2 =>
    rw [hfi2] at hf
    have hl := lookupK_match hf.2 k
    rw [hlk] at hl
    cases hlk2 : lookupK st2.providers k with
    | none => rw [hlk2] at hl; exact hl.elim
    | some e2 =>
      rw [hlk2] at hl
      cases e2 with
      | single q => exact ⟨st2, q, rfl, hlk2, hf.1, hl⟩
      | multiE qs => exact hl.elim

/-- `get` on a token registered nowhere on the chain: the fallback chain of
`Injector.get` lines 121-126 (default if not `undefined`, else optional-null,
else the unresolved error), with the world unchanged. -/
theorem run_get_unregistered (ct : ClassTable) :
    ∀ (fuel : Nat) (w : World) (i : Nat) (k : Key) (d : Value) (m : Meta),
      chainUnregistered fuel w i k = true →
      run ct fuel (.get i (.plain k) d m) w =
        (if d.isUndefV then
           (if m.optional then .ok (.val .nullV) else .error (.unresolved k))
         else .ok (.val d), w) := by
  intro fuel
  induction fuel with
  | zero => intro w i k d m h; simp [chainUnregistered] at h
  | succ fuel ih =>
    intro w i k d m h
    simp only [chainUnregistered] at h
    cases hfi : findInj w i with
    | none => rw [hfi] at h; simp at h
    | some st =>
      simp only [hfi] at h
      have hlk : lookupK st.providers k = none := by
        cases hl : lookupK st.providers k with
        | none => rfl
        | some e => rw [hl] at h; simp at h
      rw [hlk] at h
      simp only [Option.isNone_none, Bool.true_and] at h
      simp only [run, ForwardRef.resolve, hfi, hlk]
      cases hself : m.self with
      | false =>
        cases hpar : st.parent with
        | none =>
          simp only [hself, hpar]
          cases hd : d.isUndefV <;> cases hopt : m.optional <;>
            simp [hd, hopt]
        | some pid =>
          simp only [hself, hpar]
          have h2 : chainUnregistered fuel w pid k = true := by
            simp only [hpar] at h; simpa using h
          rw [ih w pid k d { m with skipSelf := false, self := false } h2]
      | true =>
        cases hpar : st.parent <;>
          simp only [hself, hpar] <;>
          cases hd : d.isUndefV <;> cases hopt : m.optional <;> simp [hd, hopt]

/-- Claim C10: when the token is registered nowhere in the injector
hierarchy, a supplied default of `undefined` is indistinguishable from
supplying no default: the default is delivered only when it is not
`undefined`, and a `get` with an `undefined` default returns `null` when
`metadata.optional` is set and otherwise fails with the unresolved-token
error — so `undefined` can never be delivered as a caller-supplied default. -/
theorem c10_default_undefined (ct : ClassTable) (fuel : Nat) (w : World) (i : Nat)
    (k : Key) (d : Value) (m : Meta) (h : chainUnregistered fuel w i k = true) :
    run ct fuel (.get i (.plain k) d m) w =
      (if d.isUndefV then
         (if m.optional then .ok (.val .nullV) else .error (.unresolved k))
       else .ok (.val d), w) :=
  run_get_unregistered ct fuel w i k d m h

/-- Two empty injectors, child 0 chained to parent 1. -/
def wEmptyChain : World := mkWorld [(0, [], some 1), (1, [], none)]

theorem c10_default_undefined_witness :
    chainUnregistered 2 wEmptyChain 0 (.tok 3) = true
    ∧ run ctNone 2 (.get 0 (.plain (.tok 3)) .undefV {}) wEmptyChain
        = (.error (.unresolved (.tok 3)), wEmptyChain)
    ∧ run ctNone 2 (.get 0 (.plain (.tok 3)) .undefV { optional := true }) wEmptyChain
        = (.ok (.val .nullV), wEmptyChain)
    ∧ run ctNone 2 (.get 0 (.plain (.tok 3)) (.str "dflt") {}) wEmptyChain
        = (.ok (.val (.str "dflt")), wEmptyChain) :=
  ⟨rfl,
   by rw [c10_default_undefined ctNone 2 wEmptyChain 0 (.tok 3) .undefV {} rfl]; rfl,
   by rw [c10_default_undefined ctNone 2 wEmptyChain 0 (.tok 3) .undefV
        { optional := true } rfl]; rfl,
   by rw [c10_default_undefined ctNone 2 wEmptyChain 0 (.tok 3) (.str "dflt") {} rfl]; rfl⟩

/-- Claim C7: with a local provider for `k` on injector `i` and a query
carrying `skipSelf`, the local provider is bypassed: when a parent exists the
whole call is exactly the parent's `get` with `skipSelf` and `self` cleared
(so a providing parent's value is returned); when there is no parent the call
falls to the default / optional-null / unresolved-error chain instead of the
local value; and when a parent exists but the token is unregistered on the
parent chain the same fallback chain results. -/
theorem c7_skipSelf (ct : ClassTable) (fuel : Nat) (i : Nat) (k : Key) (d : Value)
    (m : Meta) (w : World) (st : InjState) (e : Entry)
    (hfi : findInj w i = some st) (hlk : lookupK st.providers k = some e)
    (hss : m.skipSelf = true) (hself : m.self = false) :
    (∀ pid, st.parent = some pid →
      run ct (fuel + 1) (.get i (.plain k) d m) w =
        run ct fuel (.get pid (.plain k) d { m with skipSelf := false, self := false }) w)
    ∧ (st.parent = none →
      run ct (fuel + 1) (.get i (.plain k) d m) w =
        (if d.isUndefV then
           (if m.optional then .ok (.val .nullV) else .error (.unresolved k))
         else .ok (.val d), w))
    ∧ (∀ pid, st.parent = some pid → chainUnregistered fuel w pid k = true →
      run ct (fuel + 1) (.get i (.plain k) d m) w =
        (if d.isUndefV then
           (if m.optional then .ok (.val .nullV) else .error (.unresolved k))
         else .ok (.val d), w)) := by
  refine ⟨?_, ?_, ?_⟩
  · intro pid hpar
    simp only [run, ForwardRef.resolve, hfi, hlk, hss, hself, hpar]
  · intro hpar
    simp only [run, ForwardRef.resolve, hfi, hlk, hss, hself, hpar]
    cases hd : d.isUndefV <;> cases hopt : m.optional <;> simp [hd, hopt]
  · intro pid hpar hch
    simp only [run, ForwardRef.resolve, hfi, hlk, hss, hself, hpar]
    exact run_get_unregistered ct fuel w pid k d
      { m with skipSelf := false, self := false } hch

/-- Parent injector 0 provides token 0 as `"parentVal"`; child injector 1
provides the same token locally as `"localVal"`. -/
def wSkip : World := mkWorld
  [(0, [.rec2 { provide := .tok 0, kind := .valueP (.plain (.str "parentVal")) }], none),
   (1, [.rec2 { provide := .tok 0, kind := .valueP (.plain (.str "localVal")) }], some 0)]

/-- A single parentless injector providing token 0 as `"localVal"`. -/
def wSkipSolo : World := mkWorld
  [(0, [.rec2 { provide := .tok 0, kind := .valueP (.plain (.str "localVal")) }], none)]

theorem c7_skipSelf_witness :
    run ctNone 11 (.get 1 (.plain (.tok 0)) .nullV { skipSelf := true }) wSkip
        = run ctNone 10 (.get 0 (.plain (.tok 0)) .nullV {}) wSkip
    ∧ (run ctNone 11 (.get 1 (.plain (.tok 0)) .nullV { skipSelf := true }) wSkip).1
        = .ok (.val (.str "parentVal"))
    ∧ run ctNone 11 (.get 0 (.plain (.tok 0)) .nullV { skipSelf := true }) wSkipSolo
        = (.ok (.val .nullV), wSkipSolo) :=
  ⟨(c7_skipSelf ctNone 10 1 (.tok 0) .nullV { skipSelf := true } wSkip _ _
      rfl rfl rfl rfl).1 0 rfl,
   rfl,
   by
     rw [(c7_skipSelf ctNone 10 0 (.tok 0) .nullV { skipSelf := true } wSkipSolo _ _
       rfl rfl rfl rfl).2.1 rfl]
     rfl⟩

/-- Claim C6 as amended: with a value provider whose `useValue` is
`undefined`, `get` succeeds and returns `undefined` (no unresolved-token
error) — but because the cache check is `resolved !== undefined` rather than
a presence flag, the call performs a full `_resolve` run (one new
`resolveRun` event), leaves the `resolved` field at `undefined`, and restores
the `resolving` stack — re-establishing exactly the state in which the next
`get` re-resolves again: an `undefined` value is re-resolved on every call
and is never effectively cached. -/
theorem c6_amended (ct : ClassTable) (fuel : Nat) (i : Nat) (k : Key) (w : World)
    (st : InjState) (p : Prov)
    (hfi : findInj w i = some st)
    (hlk : lookupK st.providers k = some (.single p))
    (hpk : p.provide = k)
    (hkind : p.kind = .valueP (.plain .undefV))
    (hres : p.resolved = .undefV)
    (hnr : k ∉ st.resolving) :
    run ct (fuel + 2) (.get i (.plain k) .undefV {}) w
        = (.ok (.val .undefV),
           popRes i k (setResolved i k none .undefV
             (addEvent (.resolveRun i k) (pushRes i k w))))
    ∧ (popRes i k (setResolved i k none .undefV
         (addEvent (.resolveRun i k) (pushRes i k w)))).events
        = w.events ++ [.resolveRun i k]
    ∧ resolvedAt (popRes i k (setResolved i k none .undefV
         (addEvent (.resolveRun i k) (pushRes i k w)))) i k = some .undefV
    ∧ resolvingOf (popRes i k (setResolved i k none .undefV
         (addEvent (.resolveRun i k) (pushRes i k w)))) i = resolvingOf w i := by
  refine ⟨?_, rfl, ?_, ?_⟩
  · simp only [run, ForwardRef.resolve, hfi, hlk, hres, Value.isUndefV]
    simp only [run, readProv, hfi, hlk, hres, Value.isUndefV, hkind, hpk]
    simp [hnr]
  · unfold resolvedAt popRes
    rw [findInj_updInj]
    unfold setResolved
    rw [findInj_updInj]
    have hfia : findInj (addEvent (.resolveRun i k) (pushRes i k w)) i
        = some { st with resolving := st.resolving ++ [k] } := by
      show findInj (pushRes i k w) i = _
      unfold pushRes
      rw [findInj_updInj, hfi]
      rfl
    rw [hfia]
    simp only [Option.map_some']
    rw [lookupK_updEntryL]
    show (match ((lookupK st.providers k).map fun e =>
        match e, (none : Option Nat) with
        | .single p2, none => Entry.single { p2 with resolved := Value.undefV }
        | .multiE ps, some j => .multiE (setResolvedAt ps j .undefV)
        | e2, _ => e2) with
      | some (Entry.single p2) => some p2.resolved
      | _ => none) = some Value.undefV
    rw [hlk]
    rfl
  · unfold resolvingOf popRes
    rw [findInj_updInj]
    unfold setResolved
    rw [findInj_updInj]
    have hfia : findInj (addEvent (.resolveRun i k) (pushRes i k w)) i
        = some { st with resolving := st.resolving ++ [k] } := by
      show findInj (pushRes i k w) i = _
      unfold pushRes
      rw [findInj_updInj, hfi]
      rfl
    rw [hfia, hfi]
    simp only [Option.map_some', Option.getD_some]
    exact spliceOne_append_of_not_mem hnr

theorem c6_amended_witness :
    run ctNone 12 (.get 0 (.plain (.tok 0)) .undefV {}) wUndefVal
        = (.ok (.val .undefV),
           popRes 0 (.tok 0) (setResolved 0 (.tok 0) none .undefV
             (addEvent (.resolveRun 0 (.tok 0)) (pushRes 0 (.tok 0) wUndefVal))))
    ∧ resolveRunCount
        (run ctNone 12 (.get 0 (.plain (.tok 0)) .undefV {}) wUndefVal).2 0 (.tok 0) = 1 :=
  ⟨(c6_amended ctNone 10 0 (.tok 0) wUndefVal _ _ rfl rfl rfl rfl rfl (by decide)).1,
   rfl⟩

theorem findL_updInjL_providers {j : Nat} {f : InjState → InjState}
    (hf : ∀ s, (f s).providers = s.providers) (i : Nat) :
    ∀ (l : List (Nat × InjState)),
      ((updInjL l j f).find? (fun p => p.1 = i)).map (fun p => p.2.providers)
        = (l.find? (fun p => p.1 = i)).map (fun p => p.2.providers) := by
  intro l
  induction l with
  | nil => rfl
  | cons p rest ih =>
    by_cases hpj : p.1 = j
    · simp only [updInjL, hpj, if_pos]
      by_cases hpi : p.1 = i
      · rw [List.find?_cons_of_pos _ (by simp [hpj, ← hpi]),
          List.find?_cons_of_pos _ (by simp [hpi])]
        simp [hf]
      · rw [List.find?_cons_of_neg _ (by simp [hpj]; rw [hpj] at hpi; exact hpi),
          List.find?_cons_of_neg _ (by simp [hpi])]
    · simp only [updInjL, hpj, if_neg, not_false_iff]
      by_cases hpi : p.1 = i
      · rw [List.find?_cons_of_pos _ (by simp [hpi]),
          List.find?_cons_of_pos _ (by simp [hpi])]
      · rw [List.find?_cons_of_neg _ (by simp [hpi]),
          List.find?_cons_of_neg _ (by simp [hpi])]
        exact ih

theorem resolvedAt_congr {x y : World} (i : Nat)
    (h : (findInj x i).map (fun s => s.providers)
       = (findInj y i).map (fun s => s.providers)) (k : Key) :
    resolvedAt x i k = resolvedAt y i k := by
  unfold resolvedAt
  cases hx : findInj x i with
  | none =>
    cases hy : findInj y i with
    | none => rfl
    | some t => rw [hx, hy] at h; exact absurd h (by simp)
  | some s =>
    cases hy : findInj y i with
    | none => rw [hx, hy] at h; exact absurd h (by simp)
    | some t =>
      rw [hx, hy] at h
      simp only [Option.map_some', Option.some_inj] at h
      show (match lookupK s.providers k with
        | some (Entry.single p) => some p.resolved
        | _ => none)
        = (match lookupK t.providers k with
        | some (Entry.single p) => some p.resolved
        | _ => none)
      rw [h]

theorem findInj_updInj_providers {x : World} {j : Nat} {f : InjState → InjState}
    (hf : ∀ s, (f s).providers = s.providers) (i : Nat) :
    (findInj (updInj x j f) i).map (fun s => s.providers)
      = (findInj x i).map (fun s => s.providers) := by
  show (((updInjL x.injs j f).find? (fun p => p.1 = i)).map (·.2)).map (fun s => s.providers)
      = ((x.injs.find? (fun p => p.1 = i)).map (·.2)).map (fun s => s.providers)
  rw [Option.map_map, Option.map_map]
  exact findL_updInjL_providers hf i x.injs

theorem resolvedAt_updInj {x : World} {j : Nat} {f : InjState → InjState}
    (hf : ∀ s, (f s).providers = s.providers) (i : Nat) (k : Key) :
    resolvedAt (updInj x j f) i k = resolvedAt x i k :=
  resolvedAt_congr i (findInj_updInj_providers hf i) k

theorem resolvedAt_popRes (i2 : Nat) (k2 : Key) (x : World) (i : Nat) (k : Key) :
    resolvedAt (popRes i2 k2 x) i k = resolvedAt x i k := by
  unfold popRes
  exact resolvedAt_updInj
    (f := fun s => { s with resolving := spliceOne s.resolving k2 })
    (fun _ => rfl) i k

/-- `resolvedAt` of a shape-matching world at an alias slot is unchanged. -/
theorem resolvedAt_alias_match {w w3 : World} (h : worldMatch w w3) {i : Nat}
    {k : Key} {st : InjState} {p : Prov}
    (hfi : findInj w i = some st)
    (hlk : lookupK st.providers k = some (.single p))
    (hex : p.kind.isExisting = true) :
    resolvedAt w3 i k = some p.resolved := by
  obtain ⟨st2, q, hfi2, hlk2, _, hm⟩ := single_match h hfi hlk
  have hqres : p.resolved = q.resolved := hm.2.2.2 hex
  unfold resolvedAt
  rw [hfi2]
  show (match lookupK st2.providers k with
    | some (Entry.single p2) => some p2.resolved
    | _ => none) = some p.resolved
  rw [hlk2, hqres]

/-- Claim C9: resolving an `ExistingProvider` (alias) delegates to `get` on
the aliased token through the same injector — the whole call is exactly the
inner `get` (run after the cyclic-check push), with only the stack pop added
on success — and the alias provider's own `resolved` field is never written:
whether the inner resolution succeeds or fails, it still holds `undefined`
afterwards, so the alias always reads through to the aliased entry's current
cache rather than a stale copy. -/
theorem c9_alias (ct : ClassTable) (fuel : Nat) (i : Nat) (k : Key) (w : World)
    (st : InjState) (p : Prov) (ue : FRef Key)
    (hfi : findInj w i = some st)
    (hlk : lookupK st.providers k = some (.single p))
    (hpk : p.provide = k)
    (hkind : p.kind = .existingP ue)
    (hres : p.resolved = .undefV)
    (hnr : k ∉ st.resolving) :
    run ct (fuel + 2) (.get i (.plain k) .undefV {}) w
        = (match run ct fuel
              (.get i (.plain (ForwardRef.resolve ue)) .undefV {})
              (addEvent (.resolveRun i k) (pushRes i k w)) with
           | (.error e, w3) => (.error e, w3)
           | (.ok (.val v), w3) => (.ok (.val v), popRes i k w3)
           | (.ok _, w3) => (.error .typeErr, w3))
    ∧ resolvedAt (run ct (fuel + 2) (.get i (.plain k) .undefV {}) w).2 i k
        = some .undefV := by
  have hex : p.kind.isExisting = true := by simp [hkind, PKind.isExisting]
  have h1 : run ct (fuel + 2) (.get i (.plain k) .undefV {}) w
      = (match run ct fuel
            (.get i (.plain (ForwardRef.resolve ue)) .undefV {})
            (addEvent (.resolveRun i k) (pushRes i k w)) with
         | (.error e, w3) => (.error e, w3)
         | (.ok (.val v), w3) => (.ok (.val v), popRes i k w3)
         | (.ok _, w3) => (.error .typeErr, w3)) := by
    simp only [run, ForwardRef.resolve, hfi, hlk, hres, Value.isUndefV]
    simp only [run, readProv, hfi, hlk, hres, Value.isUndefV, hkind, hpk]
    simp [hnr]
  refine ⟨h1, ?_⟩
  rw [h1]
  rcases hr : run ct fuel
      (.get i (.plain (ForwardRef.resolve ue)) .undefV {})
      (addEvent (.resolveRun i k) (pushRes i k w)) with ⟨r, w3⟩
  have hw3 : worldMatch w w3 := by
    have hmid : worldMatch w (addEvent (.resolveRun i k) (pushRes i k w)) :=
      worldMatch_trans (wm_pushRes i k w) (wm_addEvent _ _)
    have hrm := run_match ct fuel
      (.get i (.plain (ForwardRef.resolve ue)) .undefV {})
      (addEvent (.resolveRun i k) (pushRes i k w))
    rw [hr] at hrm
    exact worldMatch_trans hmid hrm
  have hbase : resolvedAt w3 i k = some Value.undefV := by
    have := resolvedAt_alias_match hw3 hfi hlk hex
    rw [hres] at this
    exact this
  cases r with
  | error e => exact hbase
  | ok o =>
    cases o with
    | val v =>
      show resolvedAt (popRes i k w3) i k = some Value.undefV
      rw [resolvedAt_popRes]
      exact hbase
    | vals vs => exact hbase
    | unitO => exact hbase

theorem Value.eq_undefV_of_isUndefV : ∀ {v : Value}, v.isUndefV = true → v = .undefV
  | .undefV, _ => rfl

theorem findInj_pushRes {w : World} {i : Nat} {st : InjState}
    (hfi : findInj w i = some st) (kp : Key) :
    findInj (pushRes i kp w) i = some { st with resolving := st.resolving ++ [kp] } := by
  unfold pushRes
  rw [findInj_updInj, hfi]
  rfl

theorem findInj_addEvent (e : Event) (w : World) (i : Nat) :
    findInj (addEvent e w) i = findInj w i := rfl

theorem findInj_setResolved {w : World} {i : Nat} {st : InjState}
    (hfi : findInj w i = some st) (k : Key) (idx : Option Nat) (v : Value) :
    findInj (setResolved i k idx v w) i
      = some { st with providers := updEntryL st.providers k (writeResolved idx v) } := by
  unfold setResolved
  rw [findInj_updInj, hfi]
  rfl

theorem findInj_popRes {w : World} {i : Nat} {st : InjState}
    (hfi : findInj w i = some st) (kp : Key) :
    findInj (popRes i kp w) i = some { st with resolving := spliceOne st.resolving kp } := by
  unfold popRes
  rw [findInj_updInj, hfi]
  rfl

/-- The injector state visible after the cache write and stack pop that end a
successful non-alias `_resolve` of the `single` provider at slot `k`. -/
theorem post_write_entry {w4 : World} {i : Nat} {k : Key} {st4 : InjState}
    {q : Prov} (v : Value) (kpop : Key)
    (hfi4 : findInj w4 i = some st4)
    (hlk4 : lookupK st4.providers k = some (.single q)) :
    findInj (popRes i kpop (setResolved i k none v w4)) i
      = some { st4 with
          providers := updEntryL st4.providers k (writeResolved none v),
          resolving := spliceOne st4.resolving kpop }
    ∧ lookupK (updEntryL st4.providers k (writeResolved none v)) k
      = some (.single { q with resolved := v }) := by
  constructor
  · rw [findInj_popRes (findInj_setResolved hfi4 k none v) kpop]
  · rw [lookupK_updEntryL, hlk4]
    rfl

/-- A successful `get` of a non-multi value-provider slot whose cache is
unset: one full `_resolve` run (push, trace event, `ForwardRef` unwrap of
`useValue`, cache write, pop). -/
theorem run_get_value (ct : ClassTable) (fuel : Nat) (i : Nat) (k : Key) (w : World)
    (st : InjState) (p : Prov) (uv : FRef Value)
    (hfi : findInj w i = some st)
    (hlk : lookupK st.providers k = some (.single p))
    (hpk : p.provide = k)
    (hkind : p.kind = .valueP uv)
    (hres : p.resolved = .undefV)
    (hnr : k ∉ st.resolving) :
    run ct (fuel + 2) (.get i (.plain k) .undefV {}) w
      = (.ok (.val (ForwardRef.resolve uv)),
         popRes i k (setResolved i k none (ForwardRef.resolve uv)
           (addEvent (.resolveRun i k) (pushRes i k w)))) := by
  simp only [run, ForwardRef.resolve, hfi, hlk, hres, Value.isUndefV]
  simp only [run, readProv, hfi, hlk, hres, Value.isUndefV, hkind, hpk]
  simp [hnr]
theorem c1_leaf (ct : ClassTable) (i : Nat) (k : Key) (w4 : World) (st4 : InjState)
    (q : Prov) (v : Value) (kpop : Key)
    (hfi4 : findInj w4 i = some st4)
    (hlk4 : lookupK st4.providers k = some (.single q)) :
    resolvedAt (popRes i kpop (setResolved i k none v w4)) i k = some v
    ∧ (v.isUndefV = false → ∀ fuel2,
        run ct (fuel2 + 1) (.get i (.plain k) .undefV {})
            (popRes i kpop (setResolved i k none v w4))
          = (.ok (.val v), popRes i kpop (setResolved i k none v w4))) := by
  obtain ⟨hfi5, hlk5⟩ := post_write_entry v kpop hfi4 hlk4
  constructor
  · unfold resolvedAt
    rw [hfi5]
    show (match lookupK (updEntryL st4.providers k (writeResolved none v)) k with
      | some (Entry.single p2) => some p2.resolved
      | _ => none) = some v
    rw [hlk5]
  · intro hvu fuel2
    simp [run, ForwardRef.resolve, hfi5, hlk5, hvu]

/-- Injector 0 with `{ provide: token 0, useFactory: () => undefined }` (a
factory provider whose result is `undefined`). -/
def wUndefFactory : World := mkWorld
  [(0, [.rec2 { provide := .tok 0,
                kind := .factoryP (.plain (.pureF (fun _ => .undefV))) [] }], none)]

/-- The state after one `get` of token 0 on `wUndefFactory`. -/
def undefFactoryRunW : World :=
  (run ctNone 30 (.get 0 (.plain (.tok 0)) .undefV {}) wUndefFactory).2

/-- Claim C1 counterexample: for a factory provider (squarely inside the
claim's "class, factory, or value" scope) whose result is `undefined`, the
first resolution does NOT leave a usable cache and subsequent `get`s do not
return a cached value: two successive `get`s perform TWO full `_resolve`
runs — the factory is re-invoked on the second call instead of the cached
result being returned — and after both calls the provider's `resolved` field
still holds `undefined` (the `resolved !== undefined` check can never see an
`undefined` result as cached).  With a factory whose return value varies
between invocations, the second `get` therefore need not return the
first call's value at all. -/
theorem c1_counterexample :
    (run ctNone 30 (.get 0 (.plain (.tok 0)) .undefV {}) wUndefFactory).1
        = .ok (.val .undefV)
    ∧ (run ctNone 30 (.get 0 (.plain (.tok 0)) .undefV {}) undefFactoryRunW).1
        = .ok (.val .undefV)
    ∧ resolveRunCount
        (run ctNone 30 (.get 0 (.plain (.tok 0)) .undefV {}) undefFactoryRunW).2
        0 (.tok 0) = 2
    ∧ ¬ (2 : Nat) ≤ 1
    ∧ resolvedAt
        (run ctNone 30 (.get 0 (.plain (.tok 0)) .undefV {}) undefFactoryRunW).2
        0 (.tok 0) = some .undefV :=
  ⟨rfl, rfl, rfl, by decide, rfl⟩

/-- Claim C1 as amended: for a non-multi, non-alias (class, factory or value)
provider registered at slot `k` of injector `i`, a successful `get` writes
the produced value to the provider's `resolved` field; whenever that value is
not `undefined`, every subsequent `get` on the same injector returns the
identical cached value with the world untouched; and for a value provider
even an `undefined` result is returned identically on every call (the
`resolved !== undefined` check re-resolves it, deterministically yielding the
same `undefined`).  An `undefined`-valued factory falls outside the cache —
see the counterexample — so there the identical-value guarantee extends only
as far as the factory is deterministic.  Reference equality is object-id
equality of the `Value` domain. -/
theorem c1_singleton_cache (ct : ClassTable) (fuel : Nat) (i : Nat) (k : Key)
    (w w2 : World) (st : InjState) (p : Prov) (v : Value)
    (hfi : findInj w i = some st)
    (hlk : lookupK st.providers k = some (.single p))
    (hpk : p.provide = k)
    (hcon : p.kind.isConcrete = true)
    (hrun : run ct (fuel + 1) (.get i (.plain k) .undefV {}) w = (.ok (.val v), w2)) :
    resolvedAt w2 i k = some v
    ∧ (v.isUndefV = false → ∀ fuel2,
        run ct (fuel2 + 1) (.get i (.plain k) .undefV {}) w2 = (.ok (.val v), w2))
    ∧ (∀ uv, p.kind = .valueP uv → ∀ fuel2,
        (run ct (fuel2 + 2) (.get i (.plain k) .undefV {}) w2).1 = .ok (.val v)) := by
  simp only [run, ForwardRef.resolve, hfi, hlk] at hrun
  by_cases hru : p.resolved.isUndefV = true
  · rw [if_pos hru] at hrun
    have hresu : p.resolved = .undefV := Value.eq_undefV_of_isUndefV hru
    cases fuel with
    | zero => simp [run] at hrun
    | succ f =>
      simp only [run, readProv, hfi, hlk, hru] at hrun
      by_cases hmem : p.provide ∈ st.resolving
      · simp [hmem] at hrun
      · simp [hmem] at hrun
        cases hkind : p.kind with
        | classP useClass =>
          simp only [hkind] at hrun
          split at hrun
          · exact absurd hrun (by simp)
          · rename_i args w3 hd
            split at hrun
            · exact absurd hrun (by simp)
            · rename_i v2 w4 hi
              simp only [Prod.mk.injEq, Except.ok.injEq, Out.val.injEq] at hrun
              obtain ⟨hveq, hweq⟩ := hrun
              subst hveq
              subst hweq
              have hwm3 : worldMatch w w3 :=
                wm_run_step (fun c2 w0 => run_match ct f c2 w0)
                  (worldMatch_trans (wm_pushRes i p.provide w) (wm_addEvent _ _)) hd
              have hwm4 : worldMatch w w4 :=
                wm_run_step (fun c2 w0 => run_match ct f c2 w0) hwm3 hi
              obtain ⟨st4, q, hfi4, hlk4, _, hm4⟩ := single_match hwm4 hfi hlk
              obtain ⟨h1, h2⟩ := c1_leaf ct i k w4 st4 q v2 p.provide hfi4 hlk4
              exact ⟨h1, h2, fun uv huv => by simp [hkind] at huv⟩
            · rename_i w4 hi
              exact absurd hrun (by simp)
          · rename_i w4 hd
            exact absurd hrun (by simp)
        | factoryP useFactory deps =>
          simp only [hkind] at hrun
          split at hrun
          · exact absurd hrun (by simp)
          · rename_i args w3 hd
            have hwm3 : worldMatch w w3 :=
              wm_run_step (fun c2 w0 => run_match ct f c2 w0)
                (worldMatch_trans (wm_pushRes i p.provide w) (wm_addEvent _ _)) hd
            split at hrun
            · rename_i f2 hff
              simp only [Prod.mk.injEq, Except.ok.injEq, Out.val.injEq] at hrun
              obtain ⟨hveq, hweq⟩ := hrun
              subst hveq
              subst hweq
              obtain ⟨st4, q, hfi4, hlk4, _, hm4⟩ := single_match hwm3 hfi hlk
              obtain ⟨h1, h2⟩ := c1_leaf ct i k w3 st4 q (f2 args) p.provide hfi4 hlk4
              exact ⟨h1, h2, fun uv huv => by simp [hkind] at huv⟩
            · rename_i c2 hff
              simp only [Prod.mk.injEq, Except.ok.injEq, Out.val.injEq] at hrun
              obtain ⟨hveq, hweq⟩ := hrun
              subst hveq
              subst hweq
              have hwma : worldMatch w (allocObj c2 w3).2 :=
                worldMatch_trans hwm3 (wm_allocObj c2 w3)
              obtain ⟨st4, q, hfi4, hlk4, _, hm4⟩ := single_match hwma hfi hlk
              obtain ⟨h1, h2⟩ := c1_leaf ct i k (allocObj c2 w3).2 st4 q
                (.obj (allocObj c2 w3).1) p.provide hfi4 hlk4
              exact ⟨h1, h2, fun uv huv => by simp [hkind] at huv⟩
          · rename_i w4 hd
            exact absurd hrun (by simp)
        | valueP useValue =>
          simp only [hkind] at hrun
          simp only [Prod.mk.injEq, Except.ok.injEq, Out.val.injEq] at hrun
          obtain ⟨hveq, hweq⟩ := hrun
          subst hveq
          subst hweq
          have hfib : findInj (addEvent (.resolveRun i p.provide) (pushRes i p.provide w)) i
              = some { st with resolving := st.resolving ++ [p.provide] } :=
            findInj_pushRes hfi p.provide
          obtain ⟨h1, h2⟩ := c1_leaf ct i k
            (addEvent (.resolveRun i p.provide) (pushRes i p.provide w))
            { st with resolving := st.resolving ++ [p.provide] } p
            (ForwardRef.resolve useValue) p.provide hfib hlk
          refine ⟨h1, h2, ?_⟩
          intro uv huv fuel2
          have huv2 : useValue = uv := by injection huv
          subst huv2
          by_cases hvu : (ForwardRef.resolve useValue).isUndefV = true
          · have hres2 : ForwardRef.resolve useValue = Value.undefV :=
              Value.eq_undefV_of_isUndefV hvu
            obtain ⟨hfi5, hlk5⟩ :=
              post_write_entry (ForwardRef.resolve useValue) p.provide hfib hlk
            have hrgv := run_get_value ct fuel2 i k
              (popRes i p.provide (setResolved i k none (ForwardRef.resolve useValue)
                (addEvent (.resolveRun i p.provide) (pushRes i p.provide w))))
              _ { p with resolved := ForwardRef.resolve useValue } useValue
              hfi5 hlk5 hpk hkind hres2
              (by
                show k ∉ spliceOne (st.resolving ++ [p.provide]) p.provide
                rw [spliceOne_append_of_not_mem hmem]
                exact hpk ▸ hmem)
            rw [hrgv]
          · have hvu2 : (ForwardRef.resolve useValue).isUndefV = false := by
              simpa using hvu
            show (run ct ((fuel2 + 1) + 1) (.get i (.plain k) .undefV {})
              (popRes i p.provide (setResolved i k none (ForwardRef.resolve useValue)
                (addEvent (.resolveRun i p.provide) (pushRes i p.provide w))))).1
              = .ok (.val (ForwardRef.resolve useValue))
            rw [h2 hvu2 (fuel2 + 1)]
        | existingP useExisting => simp [hkind, PKind.isConcrete] at hcon
        | badP => simp [hkind, PKind.isConcrete] at hcon
  · rw [if_neg hru] at hrun
    simp only [Prod.mk.injEq, Except.ok.injEq, Out.val.injEq] at hrun
    obtain ⟨hveq, hweq⟩ := hrun
    subst hweq
    have hv2 : p.resolved = v := hveq
    refine ⟨?_, ?_, ?_⟩
    · unfold resolvedAt
      rw [hfi]
      show (match lookupK st.providers k with
        | some (Entry.single p2) => some p2.resolved
        | _ => none) = some v
      rw [hlk]
      exact congrArg some hv2
    · intro hvu fuel2
      simp [run, ForwardRef.resolve, hfi, hlk, hv2, hvu]
    · intro uv huv fuel2
      have hvu : v.isUndefV = false := by
        rw [← hv2]
        cases hx : p.resolved.isUndefV with
        | true => exact absurd hx hru
        | false => rfl
      simp [run, ForwardRef.resolve, hfi, hlk, hv2, hvu]

theorem c1_singleton_cache_witness :
    resolvedAt (run ctNone 30 (.get 0 (.plain (.tok 0)) .undefV {}) wStrVal).2 0 (.tok 0)
        = some (.str "blorg")
    ∧ run ctNone 31 (.get 0 (.plain (.tok 0)) .undefV {})
          (run ctNone 30 (.get 0 (.plain (.tok 0)) .undefV {}) wStrVal).2
        = (.ok (.val (.str "blorg")),
           (run ctNone 30 (.get 0 (.plain (.tok 0)) .undefV {}) wStrVal).2) :=
  have h := c1_singleton_cache ctNone 29 0 (.tok 0) wStrVal
    (run ctNone 30 (.get 0 (.plain (.tok 0)) .undefV {}) wStrVal).2 _ _ (.str "blorg")
    rfl rfl rfl rfl rfl
  ⟨h.1, h.2.1 rfl 30⟩

/-- Claim C3 as amended: the `lazy` flag is honored by
`Injector._getDependencies`, not by `get`.  A dependency spec with
`lazy: true` makes `_getDependencies` produce a zero-argument thunk
immediately, without walking the dependency graph (the world is returned
unchanged); invoking the thunk re-enters `get` with the captured token and
the SAME metadata (`lazy` is not cleared — harmless, because `get` never
reads `metadata.lazy`); and `get` itself resolves eagerly even when called
with `lazy: true`, as the concrete run shows: passing `lazy` to `get`
directly changes nothing. -/
theorem c3_amended (ct : ClassTable) :
    (∀ (fuel : Nat) (i : Nat) (m : Meta) (w : World), m.lazy = true →
      run ct (fuel + 2) (.getDependencies i [m]) w = (.ok (.vals [.thunk i m]), w))
    ∧ (∀ (fuel : Nat) (i : Nat) (m : Meta) (w : World),
      callThunk ct fuel (.thunk i m) w = run ct fuel (.get i m.token .undefV m) w)
    ∧ run ctNone 30
        (.get 0 (.plain (.tok 0)) .undefV { token := .plain (.tok 0), lazy := true }) wStrVal
      = run ctNone 30
        (.get 0 (.plain (.tok 0)) .undefV { token := .plain (.tok 0) }) wStrVal := by
  refine ⟨?_, ?_, rfl⟩
  · intro fuel i m w hml
    simp [run, hml]
  · intro fuel i m w
    rfl

/-- The lazy injection spec for token 0. -/
def mLazy0 : Meta := { token := .plain (.tok 0), lazy := true }

theorem c3_amended_witness :
    run ctNone 12 (.getDependencies 0 [mLazy0]) wStrVal
        = (.ok (.vals [.thunk 0 mLazy0]), wStrVal)
    ∧ callThunk ctNone 30 (.thunk 0 mLazy0) wStrVal
        = run ctNone 30 (.get 0 (.plain (.tok 0)) .undefV mLazy0) wStrVal
    ∧ (callThunk ctNone 30 (.thunk 0 mLazy0) wStrVal).1 = .ok (.val (.str "blorg")) :=
  ⟨(c3_amended ctNone).1 10 0 mLazy0 wStrVal rfl,
   (c3_amended ctNone).2.1 30 0 mLazy0 wStrVal,
   rfl⟩

/-- Injector 0 registers class 7 (bare) and the alias
`{ provide: token 1, useExisting: class 7 }`. -/
def wAlias : World := mkWorld
  [(0, [.bare 7, .rec2 { provide := .tok 1, kind := .existingP (.plain (.cls 7)) }], none)]

theorem c9_alias_witness :
    (run ctNone 12 (.get 0 (.plain (.tok 1)) .undefV {}) wAlias).1 = .ok (.val (.obj 0))
    ∧ resolvedAt (run ctNone 12 (.get 0 (.plain (.tok 1)) .undefV {}) wAlias).2 0 (.tok 1)
        = some .undefV
    ∧ resolvedAt (run ctNone 12 (.get 0 (.plain (.tok 1)) .undefV {}) wAlias).2 0 (.cls 7)
        = some (.obj 0) :=
  ⟨rfl,
   (c9_alias ctNone 10 0 (.tok 1) wAlias _ _ _ rfl rfl rfl rfl rfl (by decide)).2,
   rfl⟩
